import Mathlib

/-!
Verification of the `AncestryBackgroundClassManager` feature-resolution and
level-synchronization engine (`src/module/item/abc/manager.ts`).

The TypeScript source is shallowly embedded: asynchronous methods become pure
functions returning `Except ABCError`, the `randomID(16)` identifier generator
becomes an explicit counter threaded through every operation (`ItemId.fresh n`
with the counter `n` incremented on each use; the source's generator is an
opaque fixed-length token with negligible collision probability, so distinct
counters model distinct identifiers), and the ambient `game` object (compendium
packs and the world-item collection) becomes an explicit `Game` record of
lookup functions.
-/

/-- An item identifier: either an externally supplied string id (`str`) or an
id produced by the `randomID(16)` generator (`fresh n`, the `n`-th generated
id).  The two constructors never collide, modelling the source's assumption
that freshly generated random ids do not collide with existing ones. -/
inductive ItemId where
  | str : String → ItemId
  | fresh : Nat → ItemId
deriving DecidableEq, Repr

/-- The error outcomes of the manager, one per `throw` site reachable from the
embedded code: `invalidItemType` for "Invalid item type for ABC creation!",
`invalidReference` for "Invalid item type referenced in ABCFeatureEntryData",
`packNotFound` for a `game.packs.get(name, strict: true)` miss, and
`nameNotFound` for a `getItemSource` slug query not returning exactly one
document. -/
inductive ABCError where
  | invalidItemType : ABCError
  | invalidReference : ABCError
  | packNotFound : String → ABCError
  | nameNotFound : String → String → ABCError
deriving DecidableEq, Repr

/-- `ABCFeatureEntryData`: a declarative reference to a grantable feature.
`pack` is the optional compendium-pack name (`entry.pack`), `id` the referenced
record id, `level` the level at which the feature unlocks. -/
structure ABCFeatureEntryData where
  pack : Option String
  id : ItemId
  level : Nat
deriving DecidableEq, Repr

/-- The source data of a feat item (`FeatSource`): the fields of the record
that the manager reads or writes.  `location` is `data.location`, `featType`
is `data.featType.value`, `sourceId` is `flags.core.sourceId`. -/
structure FeatSource where
  _id : ItemId
  name : String
  slug : Option String
  level : Nat
  location : Option ItemId
  featType : String
  sourceId : Option String
deriving DecidableEq, Repr

/-- A feat document as held in a compendium pack or the world-item collection:
its source data (`data._source`) plus the derived data recomputed by
`prepareData()`.  `preparedLevel` stands for every level-derived output of the
document; `prepareData` recomputes it from the source level. -/
structure FeatDocument where
  source : FeatSource
  preparedLevel : Nat
deriving DecidableEq, Repr

/-- `prepareData()`: recompute the document's derived data from its source. -/
def FeatDocument.prepareData (d : FeatDocument) : FeatDocument :=
  { d with preparedLevel := d.source.level }

/-- A document stored in a compendium pack or the world-item collection.
Shape dispatch (the source's `instanceof FeatPF2e` checks) is modelled by the
two constructors; the item-class definitions themselves live outside the
embedded file, so a non-feat document carries only the fields the manager's
queries touch (its id and slug). -/
inductive ItemDoc where
  | feat : FeatDocument → ItemDoc
  | other : ItemId → Option String → ItemDoc
deriving DecidableEq, Repr

/-- The document id (`document.id`). -/
def ItemDoc.docId : ItemDoc → ItemId
  | .feat d => d.source._id
  | .other i _ => i

/-- The document slug (`data.slug`), used by slug queries. -/
def ItemDoc.docSlug : ItemDoc → Option String
  | .feat d => d.source.slug
  | .other _ s => s

/-- `instanceof FeatPF2e`. -/
def ItemDoc.isFeat : ItemDoc → Bool
  | .feat _ => true
  | .other _ _ => false

/-- The feat source data of a document (defaulted for non-feat documents,
which never reach the places this projection is used). -/
def ItemDoc.sourceOf : ItemDoc → FeatSource
  | .feat d => d.source
  | .other i s => ⟨i, "", s, 0, none, "", none⟩

/-- The observable key of a resolved feature used for correspondence
statements: its name, level, feat type and location (everything except the
freshly generated identity and incidental fields). -/
def featKey (f : FeatSource) : String × Nat × String × Option ItemId :=
  (f.name, f.level, f.featType, f.location)

/-- The source data shared by Ancestry and Background records: identity, slug
and the `data.items` map of feature entries (its values, in slot order). -/
structure ABCSourceData where
  _id : ItemId
  slug : Option String
  items : List ABCFeatureEntryData
deriving DecidableEq, Repr

/-- A Class record's source data: identity, slug, the `data.items` feature
entries, and the `flags.pf2e.insertedClassFeaturesLevel` marker stamped when
the class is attached. -/
structure ClassSource where
  _id : ItemId
  slug : Option String
  items : List ABCFeatureEntryData
  insertedClassFeaturesLevel : Option Nat
deriving DecidableEq, Repr

/-- An item source as passed to `createEmbeddedDocuments` (`ItemSourcePF2e`):
an ancestry, background or class build record, a feat source, or some other
item type. -/
inductive ItemSourcePF2e where
  | ancestry : ABCSourceData → ItemSourcePF2e
  | background : ABCSourceData → ItemSourcePF2e
  | cls : ClassSource → ItemSourcePF2e
  | featS : FeatSource → ItemSourcePF2e
  | otherS : ItemId → Option String → ItemSourcePF2e
deriving DecidableEq, Repr

/-- `item.data.slug` of an item source. -/
def ItemSourcePF2e.slugOf : ItemSourcePF2e → Option String
  | .ancestry d => d.slug
  | .background d => d.slug
  | .cls c => c.slug
  | .featS f => f.slug
  | .otherS _ s => s

/-- `item._id` of an item source. -/
def ItemSourcePF2e.idOf : ItemSourcePF2e → ItemId
  | .ancestry d => d._id
  | .background d => d._id
  | .cls c => c._id
  | .featS f => f._id
  | .otherS i _ => i

/-- `(item as FeatSource).data.location`: only feat sources carry a location
field. -/
def ItemSourcePF2e.locationOf : ItemSourcePF2e → Option ItemId
  | .featS f => f.location
  | _ => none

/-- `item._id = newId`. -/
def ItemSourcePF2e.setId : ItemSourcePF2e → ItemId → ItemSourcePF2e
  | .ancestry d, i => .ancestry { d with _id := i }
  | .background d, i => .background { d with _id := i }
  | .cls c, i => .cls { c with _id := i }
  | .featS f, i => .featS { f with _id := i }
  | .otherS _ s, i => .otherS i s

/-- `(item as FeatSource).data.location = loc`: a write to the location field,
which only feat sources carry. -/
def ItemSourcePF2e.setLocation : ItemSourcePF2e → Option ItemId → ItemSourcePF2e
  | .featS f, l => .featS { f with location := l }
  | x, _ => x

/-- `item.name` of an item source (only feats carry a name in this model; the
build records' names are irrelevant to the manager). -/
def ItemSourcePF2e.itemName : ItemSourcePF2e → String
  | .featS f => f.name
  | _ => ""

/-- `ABCManagerOptions`: the optional `assurance` skill list. -/
structure ABCManagerOptions where
  assurance : Option (List String)
deriving DecidableEq, Repr

/-- The character record as the manager sees it: its level, the attached
build records (at most one per kind), its attached feat items, and any other
attached items. -/
structure Character where
  level : Nat
  ancestry : Option ABCSourceData
  background : Option ABCSourceData
  classItem : Option ClassSource
  feats : List FeatSource
  others : List (ItemId × Option String)
deriving DecidableEq, Repr

/-- The ambient `game` object: `packs` maps a compendium-pack name to its
document list (in pack order), `items` is the world-item collection keyed by
id. -/
structure Game where
  packs : String → Option (List ItemDoc)
  items : ItemId → Option ItemDoc

/-- `actor.createEmbeddedDocuments("Item", sources, keepId: true)` on a single
source: route it to the matching slot or list of the character. -/
def Character.attachOne (c : Character) : ItemSourcePF2e → Character
  | .ancestry d => { c with ancestry := some d }
  | .background d => { c with background := some d }
  | .cls k => { c with classItem := some k }
  | .featS f => { c with feats := c.feats ++ [f] }
  | .otherS i s => { c with others := c.others ++ [(i, s)] }

/-- `actor.createEmbeddedDocuments("Item", sources, keepId: true)`: attach all
sources in order (identities preserved) and return the created documents. -/
def createEmbedded (c : Character) (sources : List ItemSourcePF2e) :
    Character × List ItemSourcePF2e :=
  (sources.foldl Character.attachOne c, sources)

/-- `actor.deleteEmbeddedDocuments("Item", ids)`: remove every embedded item
whose id is listed. -/
def deleteEmbedded (c : Character) (ids : List ItemId) : Character :=
  { c with
    feats := c.feats.filter (fun f => !(ids.contains f._id)),
    others := c.others.filter (fun o => !(ids.contains o.1)),
    ancestry := match c.ancestry with
      | some d => if ids.contains d._id then none else some d
      | none => none,
    background := match c.background with
      | some d => if ids.contains d._id then none else some d
      | none => none,
    classItem := match c.classItem with
      | some k => if ids.contains k._id then none else some k
      | none => none }

/-- JavaScript truthiness of `entry.pack` (an optional string): `undefined`
and the empty string are falsy. -/
def packTruthy (e : ABCFeatureEntryData) : Bool :=
  match e.pack with
  | some s => s ≠ ""
  | none => false

/-- Insertion-order deduplication with an accumulator of already-seen
elements. -/
def firstDedupAux (seen : List String) : List String → List String
  | [] => []
  | x :: xs => if seen.contains x then firstDedupAux seen xs else x :: firstDedupAux (x :: seen) xs

/-- Insertion-order deduplication, as performed by `new Set(list)` iterated in
order: keep the first occurrence of each element. -/
def firstDedup (l : List String) : List String := firstDedupAux [] l

/-- The ids queried for one pack:
`entries.filter(e => e.pack === pack).map(e => e.id)`. -/
def entryIdsFor (entries : List ABCFeatureEntryData) (pack : String) : List ItemId :=
  (entries.filter (fun e => e.pack.getD "" == pack)).map (fun e => e.id)

/-- One batched pack query:
`game.packs.get(pack, strict: true).getDocuments(_id in entryIds)`.
The strict get fails when the pack is unregistered; the query returns the
pack's documents whose id is among the requested ids, in pack order. -/
def fetchPack (g : Game) (entries : List ABCFeatureEntryData) (pack : String) :
    Except ABCError (List ItemDoc) :=
  match g.packs pack with
  | none => .error (.packNotFound pack)
  | some docs => .ok (docs.filter (fun d => (entryIdsFor entries pack).contains d.docId))

/-- The level-override loop of `getFromCompendium`: for each fetched document,
find the first entry matching its record id; if found and the document is a
class feature, overwrite the source-level field with the entry's level and
re-run `prepareData()` (so the override lands before the derived data is
finalized). -/
def overrideOne (entries : List ABCFeatureEntryData) : ItemDoc → ItemDoc
  | .feat d =>
    match entries.find? (fun e => e.id == d.source._id) with
    | some entry =>
      if d.source.featType == "classfeature" then
        .feat (FeatDocument.prepareData { d with source := { d.source with level := entry.level } })
      else .feat d
    | none => .feat d
  | .other i s => .other i s

/-- See `overrideOne`: the loop body applied to every fetched document. -/
def overrideLevels (entries : List ABCFeatureEntryData) (docs : List ItemDoc) : List ItemDoc :=
  docs.map (overrideOne entries)

/-- The per-pack loop of `getFromCompendium`, instrumented with the list of
batched queries issued (pack name and requested ids, one log entry per
`getDocuments` call). -/
def loopPacks (g : Game) (entries : List ABCFeatureEntryData) :
    List String → Except ABCError (List ItemDoc × List (String × List ItemId))
  | [] => .ok ([], [])
  | p :: ps =>
    match fetchPack g entries p with
    | .error e => .error e
    | .ok docs =>
      match loopPacks g entries ps with
      | .error e => .error e
      | .ok (rest, log) => .ok (overrideLevels entries docs ++ rest, (p, entryIdsFor entries p) :: log)

/-- `getFromCompendium(entries)` with its query log: iterate over the
insertion-ordered set `new Set(entries.map(e => e.pack))` of distinct pack
names, issuing one batched query per pack. -/
def getFromCompendiumLogged (g : Game) (entries : List ABCFeatureEntryData) :
    Except ABCError (List ItemDoc × List (String × List ItemId)) :=
  loopPacks g entries (firstDedup (entries.map (fun e => e.pack.getD "")))

/-- `getFromCompendium(entries)`: the fetched (level-overridden) documents. -/
def getFromCompendium (g : Game) (entries : List ABCFeatureEntryData) :
    Except ABCError (List ItemDoc) :=
  (getFromCompendiumLogged g entries).map Prod.fst

/-- The `compendiumFeats.map(...)` step of `getFeatures`: clone each fetched
document (`toObject()`), assign a freshly generated id and set
`data.location`; a non-feat document aborts with `invalidReference`.  The
counter `n` is the `randomID` state. -/
def cloneCompendiumFeats (locationId : ItemId) :
    List ItemDoc → Nat → Except ABCError (List FeatSource × Nat)
  | [], n => .ok ([], n)
  | .feat d :: rest, n =>
    match cloneCompendiumFeats locationId rest (n + 1) with
    | .ok (fs, n') => .ok ({ d.source with _id := .fresh n, location := some locationId } :: fs, n')
    | .error e => .error e
  | .other _ _ :: _, _ => .error .invalidReference

/-- The `gameEntries.map(...)` step of `getFeatures`: look each entry up in
`game.items`, clone with a freshly generated id (no location is set for these
entries); a missing or non-feat item aborts with `invalidReference`. -/
def cloneGameFeats (g : Game) :
    List ABCFeatureEntryData → Nat → Except ABCError (List FeatSource × Nat)
  | [], n => .ok ([], n)
  | e :: rest, n =>
    match g.items e.id with
    | some (.feat d) =>
      match cloneGameFeats g rest (n + 1) with
      | .ok (fs, n') => .ok ({ d.source with _id := .fresh n } :: fs, n')
      | .error err => .error err
    | _ => .error .invalidReference

/-- `getFeatures(entries, locationId)`: resolve pack entries through the
compendium (setting `location`), then world-item entries through `game.items`
(leaving `location` untouched), concatenating pack results first. -/
def getFeatures (g : Game) (entries : List ABCFeatureEntryData) (locationId : ItemId)
    (n : Nat) : Except ABCError (List FeatSource × Nat) :=
  if entries.length > 0 then
    let packEntries := entries.filter packTruthy
    let packStep : Except ABCError (List FeatSource × Nat) :=
      if packEntries.length > 0 then
        match getFromCompendium g packEntries with
        | .error e => .error e
        | .ok docs => cloneCompendiumFeats locationId docs n
      else .ok ([], n)
    match packStep with
    | .error e => .error e
    | .ok (packFeats, n1) =>
      match cloneGameFeats g (entries.filter (fun e => !packTruthy e)) n1 with
      | .error e => .error e
      | .ok (gameFeats, n2) => .ok (packFeats ++ gameFeats, n2)
  else .ok ([], n)

/-- The level-window filter of `getClassFeaturesForLevel`: the entries with
`actorLevel >= level && level > minLevel`. -/
def windowEntries (classSource : ClassSource) (minLevel actorLevel : Nat) :
    List ABCFeatureEntryData :=
  classSource.items.filter
    (fun e => decide (actorLevel ≥ e.level) && decide (e.level > minLevel))

/-- `getClassFeaturesForLevel(item, minLevel, actorLevel)`: empty if there is
no window, otherwise resolve exactly the entries of the open-closed window. -/
def getClassFeaturesForLevel (g : Game) (classSource : ClassSource)
    (minLevel actorLevel : Nat) (n : Nat) : Except ABCError (List FeatSource × Nat) :=
  if minLevel ≥ actorLevel then .ok ([], n)
  else getFeatures g (windowEntries classSource minLevel actorLevel) classSource._id n

/-- Lexicographic comparison of character sequences by code point, the order
behind the JavaScript `<`/`>` string operators: the empty sequence precedes
everything, otherwise compare head code points and recurse on ties. -/
def charListLe : List Char → List Char → Bool
  | [], _ => true
  | _ :: _, [] => false
  | a :: as, b :: bs =>
    if a.toNat < b.toNat then true
    else if b.toNat < a.toNat then false
    else charListLe as bs

/-- `a <= b` on strings under the JavaScript comparison, i.e.
`!(nameA > nameB)` in the source's comparator. -/
def strLe (a b : String) : Bool := charListLe a.data b.data

/-- The sort comparator of the class branch of `addABCItem`, rendered as a
boolean "may precede" relation: `compare(a,b) <= 0`, i.e. lower level first,
ties broken by lexicographic name order.  The source's `Array.prototype.sort`
is stable with respect to this comparator; the embedding sorts by stable
insertion sort, which computes the same ordering because the relation is
total and transitive. -/
def featLe (a b : FeatSource) : Bool :=
  decide (a.level < b.level) || (decide (a.level = b.level) && strLe a.name b.name)

/-- `ensureClassFeaturesForLevel(actor, newLevel)`: no-op without an attached
class; on a level increase, resolve the `(actor.level, newLevel]` window and
attach the features whose `sourceId` does not already match an attached class
feature's; on a decrease, delete the attached class features above the new
level. -/
def ensureClassFeaturesForLevel (g : Game) (actor : Character) (newLevel : Nat)
    (n : Nat) : Except ABCError (Character × Nat) :=
  match actor.classItem with
  | none => .ok (actor, n)
  | some actorClass =>
    let current := actor.feats.filter (fun f => f.featType == "classfeature")
    if newLevel > actor.level then
      match getClassFeaturesForLevel g actorClass actor.level newLevel n with
      | .error e => .error e
      | .ok (ws, n') =>
        let toCreate := ws.filter
          (fun feature => !(current.any (fun cf => cf.sourceId == feature.sourceId)))
        .ok ((createEmbedded actor (toCreate.map .featS)).1, n')
    else if newLevel < actor.level then
      let toDelete := (current.filter (fun f => decide (f.level > newLevel))).map (fun f => f._id)
      .ok (deleteEmbedded actor toDelete, n)
    else .ok (actor, n)

/-- Modelled from the spec: `syncClassFeatures(character, newLevel)` is the
level-change synchronization entry point.  The code under `src/` contains only
`ensureClassFeaturesForLevel`; the caller that invokes it during a character
update — and that records the new level on the character — is outside `src/`,
so the level write is modelled here from the spec's description of the
synchronizer acting on a character whose level is changing to `newLevel`. -/
def syncClassFeatures (g : Game) (actor : Character) (newLevel : Nat) (n : Nat) :
    Except ABCError (Character × Nat) :=
  match ensureClassFeaturesForLevel g actor newLevel n with
  | .error e => .error e
  | .ok (a, n') => .ok ({ a with level := newLevel }, n')

/-- Modelled from the spec: the canonical name-to-slug mapping (`sluggify`
from `@util`, not under `src/`) used for name-based variant lookup.  Letters
are lowercased, runs of non-alphanumeric characters become single dashes, and
leading/trailing dashes are dropped. -/
def sluggify (name : String) : String :=
  let mapped := name.toList.map (fun ch => if ch.isAlphanum then ch.toLower else '-')
  let squeezed := mapped.foldr
    (fun ch acc => if ch = '-' && acc.headD ' ' = '-' then acc else ch :: acc) []
  String.mk ((squeezed.dropWhile (fun ch => ch = '-')).reverse.dropWhile
    (fun ch => ch = '-')).reverse

/-- `document.toObject()`: the plain source data of a document. -/
def ItemDoc.toObject : ItemDoc → ItemSourcePF2e
  | .feat d => .featS d.source
  | .other i s => .otherS i s

/-- `getItemSource(packName, name)`: slug-query the named pack and return the
single matching document's source, failing when the pack is missing or the
match is not unique. -/
def getItemSource (g : Game) (packName : String) (name : String) :
    Except ABCError ItemSourcePF2e :=
  let slug := sluggify name
  match g.packs packName with
  | none => .error (.packNotFound packName)
  | some docs =>
    match docs.filter (fun d => d.docSlug == some slug) with
    | [d] => .ok d.toObject
    | _ => .error (.nameNotFound name packName)

/-- The out-of-range default used when indexing the batch (never observed:
the substitution index always comes from a successful `findIndex`). -/
def dummyItem : ItemSourcePF2e := .otherS (.str "") none

/-- The assurance-substitution loop of `addFeatures`: for each requested
skill, find the first batch item whose slug is `"assurance"`; if present,
fetch the skill-specific variant by name from the feats compendium, give it a
fresh id, carry over the original item's `location`, and substitute it in
place; if absent, the skill is skipped. -/
def applyAssurance (g : Game) :
    List ItemSourcePF2e → List String → Nat → Except ABCError (List ItemSourcePF2e × Nat)
  | items, [], n => .ok (items, n)
  | items, skill :: rest, n =>
    match items.findIdx? (fun it => it.slugOf == some "assurance") with
    | some index =>
      let location := (items.getD index dummyItem).locationOf
      match getItemSource g "pf2e.feats-srd" ("Assurance (" ++ skill ++ ")") with
      | .error e => .error e
      | .ok fetched =>
        applyAssurance g
          (items.set index ((fetched.setId (.fresh n)).setLocation location)) rest (n + 1)
    | none => applyAssurance g items rest n

/-- The kind tag distinguishing the two `addFeatures` callers. -/
inductive ABKind where
  | ancestry : ABKind
  | background : ABKind
deriving DecidableEq, Repr

/-- Wrap an ancestry/background source in its item-source constructor. -/
def mkAB : ABKind → ABCSourceData → ItemSourcePF2e
  | .ancestry, d => .ancestry d
  | .background, d => .background d

/-- `addFeatures(itemSource, actor, createSource, options)`: if requested,
re-identify the build record and queue it first; resolve its feature entries
with the build's identity as location; apply the assurance substitution when
an `assurance` option is present; attach everything in one call. -/
def addFeatures (g : Game) (kind : ABKind) (itemSource : ABCSourceData)
    (actor : Character) (createSource : Bool) (options : Option ABCManagerOptions)
    (n : Nat) : Except ABCError ((Character × List ItemSourcePF2e) × Nat) :=
  let src := if createSource then { itemSource with _id := ItemId.fresh n } else itemSource
  let queued : List ItemSourcePF2e := if createSource then [mkAB kind src] else []
  let n1 := if createSource then n + 1 else n
  match getFeatures g src.items src._id n1 with
  | .error e => .error e
  | .ok (feats, n2) =>
    let itemsToCreate := queued ++ feats.map ItemSourcePF2e.featS
    let afterAssurance : Except ABCError (List ItemSourcePF2e × Nat) :=
      match options with
      | some o =>
        match o.assurance with
        | some skills => applyAssurance g itemsToCreate skills n2
        | none => .ok (itemsToCreate, n2)
      | none => .ok (itemsToCreate, n2)
    match afterAssurance with
    | .error e => .error e
    | .ok (finalItems, n3) => .ok (createEmbedded actor finalItems, n3)

/-- `addABCItem(source, actor, options)`: the attach orchestrator.  Ancestry
and Background detach the previous record of the same kind and delegate to
`addFeatures`; Class detaches the previous class, re-identifies the build,
stamps `insertedClassFeaturesLevel`, resolves the `(0, actor.level]` window,
sorts by the level/name comparator, and attaches features plus the class
record in one call; any other source kind is rejected. -/
def addABCItem (g : Game) (source : ItemSourcePF2e) (actor : Character)
    (options : Option ABCManagerOptions) (n : Nat) :
    Except ABCError ((Character × List ItemSourcePF2e) × Nat) :=
  match source with
  | .ancestry d => addFeatures g .ancestry d { actor with ancestry := none } true options n
  | .background d => addFeatures g .background d { actor with background := none } true options n
  | .cls c =>
    let actor1 := { actor with classItem := none }
    let c1 := { c with _id := ItemId.fresh n, insertedClassFeaturesLevel := some actor1.level }
    match getClassFeaturesForLevel g c1 0 actor1.level (n + 1) with
    | .error e => .error e
    | .ok (itemsToCreate, n') =>
      let sorted := List.insertionSort (fun a b => featLe a b = true) itemsToCreate
      .ok (createEmbedded actor1 (sorted.map .featS ++ [.cls c1]), n')
  | _ => .error .invalidItemType

/-! ### Concrete fixtures used by witnesses and counterexamples -/

/-- A compendium/world feat document with the given id, name, level, feat
type, slug and source id; its derived level starts consistent with its
source. -/
def fxDoc (i nm : String) (lv : Nat) (ft : String) (sl : Option String)
    (sid : Option String) : ItemDoc :=
  .feat ⟨⟨.str i, nm, sl, lv, none, ft, sid⟩, lv⟩

/-- Pack "P" holding three class features named Zeta, Beta, Alpha. -/
def gSort : Game where
  packs := fun p =>
    if p = "P" then
      some [fxDoc "z" "Zeta" 7 "classfeature" none (some "sz"),
            fxDoc "b" "Beta" 7 "classfeature" none (some "sb"),
            fxDoc "a" "Alpha" 7 "classfeature" none (some "sa")]
    else none
  items := fun _ => none

/-- A class granting Zeta at level 3 and Beta, Alpha at level 1. -/
def clsSort : ClassSource :=
  ⟨.str "C", some "fighter",
   [⟨some "P", .str "z", 3⟩, ⟨some "P", .str "b", 1⟩, ⟨some "P", .str "a", 1⟩], none⟩

/-- A bare level-3 character. -/
def actorSort : Character := ⟨3, none, none, none, [], []⟩

/-- World with pack "P" holding a class feature referenced at level 0, plus a
world item of native level 9. -/
def gC1 : Game where
  packs := fun p =>
    if p = "P" then some [fxDoc "a0" "ZeroFeat" 5 "classfeature" none (some "s0")] else none
  items := fun i =>
    if i = ItemId.str "LOC" then
      some (fxDoc "LOC" "LocalNine" 9 "classfeature" none (some "sL"))
    else none

/-- A class with a level-0 pack entry and a level-1 world-item entry. -/
def clsC1 : ClassSource :=
  ⟨.str "C", some "wizard", [⟨some "P", .str "a0", 0⟩, ⟨none, .str "LOC", 1⟩], none⟩

/-- A bare level-1 character. -/
def actorC1 : Character := ⟨1, none, none, none, [], []⟩

/-- World for the sync round trip: pack features for levels 2 and 5, plus a
world item of native level 1 referenced by a level-3 entry. -/
def gC7 : Game where
  packs := fun p =>
    if p = "P" then
      some [fxDoc "b2" "Two" 7 "classfeature" none (some "s2"),
            fxDoc "b5" "Five" 7 "classfeature" none (some "s5")]
    else none
  items := fun i =>
    if i = ItemId.str "L3" then
      some (fxDoc "L3" "LocalThree" 1 "classfeature" none (some "s3"))
    else none

/-- A class granting features at levels 1, 2, 3 and 5; the level-3 grant is a
world-item reference. -/
def clsC7 : ClassSource :=
  ⟨.str "C", some "rogue",
   [⟨some "P", .str "b1", 1⟩, ⟨some "P", .str "b2", 2⟩, ⟨none, .str "L3", 3⟩,
    ⟨some "P", .str "b5", 5⟩], some 1⟩

/-- A level-1 character with the class attached and its level-1 class feature
present. -/
def actorC7 : Character :=
  ⟨1, none, none, some clsC7, [⟨.str "F1", "One", none, 1, none, "classfeature", some "s1"⟩], []⟩

/-- The state of `actorC7` after syncing up to level 5 (computed by running
the synchronizer once). -/
def actorC7after : Character :=
  ⟨5, none, none, some clsC7,
   [⟨.str "F1", "One", none, 1, none, "classfeature", some "s1"⟩,
    ⟨.fresh 0, "Two", none, 2, some (.str "C"), "classfeature", some "s2"⟩,
    ⟨.fresh 1, "Five", none, 5, some (.str "C"), "classfeature", some "s5"⟩,
    ⟨.fresh 2, "LocalThree", none, 1, none, "classfeature", some "s3"⟩], []⟩

/-- Pack "P" holding a class feature that carries no source identity. -/
def gC9 : Game where
  packs := fun p => if p = "P" then some [fxDoc "ns" "NoSrc" 7 "classfeature" none none] else none
  items := fun _ => none

/-- A class granting the identity-less feature at level 2. -/
def clsC9 : ClassSource := ⟨.str "C9", some "witch", [⟨some "P", .str "ns", 2⟩], some 1⟩

/-- A level-1 character whose one attached class feature also carries no
source identity. -/
def actorC9 : Character :=
  ⟨1, none, none, some clsC9,
   [⟨.str "OLD", "Old", none, 1, none, "classfeature", none⟩], []⟩

/-- The resolved `(1, 2]` window for `clsC9`. -/
def wsC9 : List FeatSource :=
  [⟨.fresh 0, "NoSrc", none, 2, some (.str "C9"), "classfeature", none⟩]

/-- Two registered packs with no documents (enough to observe the query
log). -/
def g6 : Game where
  packs := fun p =>
    if p = "feats-srd" then some []
    else if p = "feats-extra" then some [] else none
  items := fun _ => none

/-- Five entries on "feats-srd" and two on "feats-extra", interleaved. -/
def entries6 : List ABCFeatureEntryData :=
  [⟨some "feats-srd", .str "e1", 1⟩, ⟨some "feats-srd", .str "e2", 1⟩,
   ⟨some "feats-srd", .str "e3", 1⟩, ⟨some "feats-extra", .str "x1", 1⟩,
   ⟨some "feats-srd", .str "e4", 1⟩, ⟨some "feats-srd", .str "e5", 1⟩,
   ⟨some "feats-extra", .str "x2", 1⟩]

/-- The query log produced for `entries6`: one batched query per pack. -/
def log6 : List (String × List ItemId) :=
  [("feats-srd", [.str "e1", .str "e2", .str "e3", .str "e4", .str "e5"]),
   ("feats-extra", [.str "x1", .str "x2"])]

/-- The Zeta document of `gSort` after the level override to its entry level
3: both the raw level and the derived level carry the override. -/
def fd5 : FeatDocument := ⟨⟨.str "z", "Zeta", none, 3, none, "classfeature", some "sz"⟩, 3⟩

/-- The full `getFromCompendium` output for `clsSort`'s entries. -/
def docs5 : List ItemDoc :=
  [.feat fd5,
   .feat ⟨⟨.str "b", "Beta", none, 1, none, "classfeature", some "sb"⟩, 1⟩,
   .feat ⟨⟨.str "a", "Alpha", none, 1, none, "classfeature", some "sa"⟩, 1⟩]

/-- A world with a wrong-shape document under the referenced pack id and a
wrong-shape world item. -/
def g8 : Game where
  packs := fun p => if p = "P" then some [.other (.str "bad1") (some "acid-splash")] else none
  items := fun i => if i = ItemId.str "LB" then some (.other (.str "LB") none) else none

/-- One pack entry and one world-item entry, both resolving to wrong-shape
records. -/
def entries8 : List ABCFeatureEntryData :=
  [⟨some "P", .str "bad1", 1⟩, ⟨none, .str "LB", 1⟩]

/-- An ancestry build whose entries are `entries8`. -/
def src8 : ABCSourceData := ⟨.str "A", some "dwarf", entries8⟩

/-- A bare character for the failing attach. -/
def actor8 : Character := ⟨1, none, none, none, [], []⟩

/-- A world with an "assurance" feat in pack "P" and the skill-specific
variant in the feats compendium. -/
def gA : Game where
  packs := fun p =>
    if p = "P" then some [fxDoc "as1" "Assurance" 1 "skill" (some "assurance") (some "sas")]
    else if p = "pf2e.feats-srd" then
      some [fxDoc "av1" "Assurance (Stealth)" 1 "skill" (some "assurance-stealth") (some "sav")]
    else none
  items := fun _ => none

/-- An ancestry granting the assurance feat. -/
def srcA : ABCSourceData := ⟨.str "ANC", some "human", [⟨some "P", .str "as1", 1⟩]⟩

/-- A bare character for the assurance attach. -/
def actorA : Character := ⟨1, none, none, none, [], []⟩

/-- The resolved assurance feature before substitution. -/
def cloneA : FeatSource :=
  ⟨.fresh 1, "Assurance", some "assurance", 1, some (.fresh 0), "skill", some "sas"⟩

/-- The pre-substitution batch: the re-identified ancestry record followed by
the resolved assurance feature. -/
def itemsA : List ItemSourcePF2e :=
  [.ancestry ⟨.fresh 0, some "human", [⟨some "P", .str "as1", 1⟩]⟩, .featS cloneA]

/-- The skill-specific variant as stored in the feats compendium. -/
def variantA : FeatSource :=
  ⟨.str "av1", "Assurance (Stealth)", some "assurance-stealth", 1, none, "skill", some "sav"⟩

/-- The three class features of `clsSort` as resolved and sorted by the class
branch: Alpha(1), Beta(1), Zeta(3). -/
def sortedC2 : List FeatSource :=
  [⟨.fresh 3, "Alpha", none, 1, some (.fresh 0), "classfeature", some "sa"⟩,
   ⟨.fresh 2, "Beta", none, 1, some (.fresh 0), "classfeature", some "sb"⟩,
   ⟨.fresh 1, "Zeta", none, 3, some (.fresh 0), "classfeature", some "sz"⟩]

/-- The re-identified class record attached by the sort witness run. -/
def clsSortNew : ClassSource :=
  ⟨.fresh 0, some "fighter",
   [⟨some "P", .str "z", 3⟩, ⟨some "P", .str "b", 1⟩, ⟨some "P", .str "a", 1⟩], some 3⟩

/-- The created batch of the sort witness run. -/
def createdC2 : List ItemSourcePF2e := sortedC2.map ItemSourcePF2e.featS ++ [.cls clsSortNew]

/-- The character after the sort witness run. -/
def a1C2 : Character := ⟨3, none, none, some clsSortNew, sortedC2, []⟩

/-- A window world for the amended round trip: pack class features at levels
2, 3 and 5 only (no world-item references). -/
def gC7w : Game where
  packs := fun p =>
    if p = "P" then
      some [fxDoc "w2" "WTwo" 9 "classfeature" none (some "sw2"),
            fxDoc "w3" "WThree" 9 "classfeature" none (some "sw3"),
            fxDoc "w5" "WFive" 9 "classfeature" none (some "sw5")]
    else none
  items := fun _ => none

/-- A class granting features at levels 1, 2, 3 and 5, all repository
references. -/
def clsC7w : ClassSource :=
  ⟨.str "CW", some "bard",
   [⟨some "P", .str "w1", 1⟩, ⟨some "P", .str "w2", 2⟩, ⟨some "P", .str "w3", 3⟩,
    ⟨some "P", .str "w5", 5⟩], some 1⟩

/-- A level-1 character with `clsC7w` attached and its level-1 feature
present. -/
def actorC7w : Character :=
  ⟨1, none, none, some clsC7w,
   [⟨.str "W1", "WOne", none, 1, none, "classfeature", some "sw1"⟩], []⟩

/-- The resolved `(1, 5]` window of `clsC7w`. -/
def wsC7w : List FeatSource :=
  [⟨.fresh 0, "WTwo", none, 2, some (.str "CW"), "classfeature", some "sw2"⟩,
   ⟨.fresh 1, "WThree", none, 3, some (.str "CW"), "classfeature", some "sw3"⟩,
   ⟨.fresh 2, "WFive", none, 5, some (.str "CW"), "classfeature", some "sw5"⟩]

/-- A window world for the amended class attach: pack "PW" holds the two
referenced class features stored in reverse entry order. -/
def gW : Game where
  packs := fun p =>
    if p = "PW" then
      some [fxDoc "x2" "XTwo" 9 "classfeature" none (some "sx2"),
            fxDoc "x1" "XOne" 9 "classfeature" none (some "sx1")]
    else none
  items := fun _ => none

/-- The registered documents of pack "PW". -/
def packDocsW : List ItemDoc :=
  [fxDoc "x2" "XTwo" 9 "classfeature" none (some "sx2"),
   fxDoc "x1" "XOne" 9 "classfeature" none (some "sx1")]

/-- A class granting XOne at level 1 and XTwo at level 2, both from "PW". -/
def clsW : ClassSource :=
  ⟨.str "CWIN", some "monk", [⟨some "PW", .str "x1", 1⟩, ⟨some "PW", .str "x2", 2⟩], none⟩

/-- A bare level-2 character. -/
def actorW : Character := ⟨2, none, none, none, [], []⟩

/-- Resolver naming the stored pack document behind each window entry id. -/
def docForW : ItemId → FeatDocument := fun i =>
  if i = ItemId.str "x1" then
    ⟨⟨.str "x1", "XOne", none, 9, none, "classfeature", some "sx1"⟩, 9⟩
  else
    ⟨⟨.str "x2", "XTwo", none, 9, none, "classfeature", some "sx2"⟩, 9⟩

/-! ### Helper lemmas -/

theorem foldl_attach_featS (fs : List FeatSource) (c : Character) :
    (fs.map ItemSourcePF2e.featS).foldl Character.attachOne c =
      { c with feats := c.feats ++ fs } := by
  induction fs generalizing c with
  | nil => simp
  | cons f rest ih =>
    simp only [List.map_cons, List.foldl_cons, Character.attachOne, ih]
    simp

/-! ### Claim theorems -/

/-- C3: for every character, a second `syncClassFeatures` call with the same
target level returns the character (and counter) unchanged: the attached
class-feature set after two calls equals the set after one. -/
theorem c3_sync_idempotent (g : Game) (actor : Character) (L n : Nat) (a1 : Character)
    (n1 : Nat) (h : syncClassFeatures g actor L n = .ok (a1, n1)) :
    syncClassFeatures g a1 L n1 = .ok (a1, n1) := by
  have hlev : a1.level = L := by
    unfold syncClassFeatures at h
    cases he : ensureClassFeaturesForLevel g actor L n with
    | error e => simp [he] at h
    | ok p =>
      simp only [he] at h
      cases h
      rfl
  have heta : { a1 with level := L } = a1 := by rw [← hlev]
  unfold syncClassFeatures ensureClassFeaturesForLevel
  cases hc : a1.classItem with
  | none => simp [heta]
  | some c =>
    have h5 : ¬(L > a1.level) := by omega
    have h6 : ¬(L < a1.level) := by omega
    simp [h5, h6, heta]

/-- C3 witness: a concrete character for which the first sync call succeeds
and the second returns the identical state. -/
theorem c3_sync_idempotent_witness :
    syncClassFeatures gC7 actorC7 5 0 = .ok (actorC7after, 3) ∧
      syncClassFeatures gC7 actorC7after 5 3 = .ok (actorC7after, 3) :=
  ⟨by rfl, c3_sync_idempotent gC7 actorC7 5 0 actorC7after 3 (by rfl)⟩

/-- C10: a skill in the assurance option whose processing finds no batch item
with slug "assurance" is skipped silently: no error, no append, the batch is
exactly what processing the remaining skills yields. -/
theorem c10_assurance_skip (g : Game) (items : List ItemSourcePF2e) (skill : String)
    (rest : List String) (n : Nat)
    (h : ∀ it ∈ items, it.slugOf ≠ some "assurance") :
    applyAssurance g items (skill :: rest) n = applyAssurance g items rest n := by
  have hfind : items.findIdx? (fun it => it.slugOf == some "assurance") = none := by
    rw [List.findIdx?_eq_none_iff]
    intro x hx
    simpa using h x hx
  simp [applyAssurance, hfind]

/-- C10 witness: a concrete batch without an assurance item is unchanged by an
assurance-option skill. -/
theorem c10_assurance_skip_witness :
    (∀ it ∈ [ItemSourcePF2e.featS ⟨.str "pa", "Power Attack", some "power-attack", 1,
        none, "feat", none⟩], it.slugOf ≠ some "assurance") ∧
      applyAssurance gSort
        [ItemSourcePF2e.featS ⟨.str "pa", "Power Attack", some "power-attack", 1,
          none, "feat", none⟩] ["Stealth"] 0 =
      applyAssurance gSort
        [ItemSourcePF2e.featS ⟨.str "pa", "Power Attack", some "power-attack", 1,
          none, "feat", none⟩] [] 0 :=
  ⟨by decide, c10_assurance_skip gSort _ "Stealth" [] 0 (by decide)⟩

/-- C9: in an upward sync, the duplicate filter compares origin identities
with plain equality including the absent case.  The add-set is exactly the
window features not suppressed by the `sourceId` check, and a window feature
with no recorded source identity is suppressed precisely when some attached
class-tagged feature also has no recorded source identity. -/
theorem c9_duplicate_filter_absent_ids (g : Game) (actor : Character) (newLevel : Nat)
    (c : ClassSource) (n n' : Nat) (ws : List FeatSource)
    (hclass : actor.classItem = some c)
    (hup : actor.level < newLevel)
    (hres : getClassFeaturesForLevel g c actor.level newLevel n = .ok (ws, n')) :
    ensureClassFeaturesForLevel g actor newLevel n =
      .ok ({ actor with feats := actor.feats ++ ws.filter (fun f =>
        !((actor.feats.filter (fun x => x.featType == "classfeature")).any
          (fun cf => cf.sourceId == f.sourceId))) }, n') ∧
    ∀ f ∈ ws, f.sourceId = none →
      (((actor.feats.filter (fun x => x.featType == "classfeature")).any
          (fun cf => cf.sourceId == f.sourceId) = true) ↔
        ∃ cf ∈ actor.feats, cf.featType = "classfeature" ∧ cf.sourceId = none) := by
  constructor
  · unfold ensureClassFeaturesForLevel
    simp only [hclass]
    rw [if_pos hup, hres]
    simp only [createEmbedded, foldl_attach_featS]
    simp [hclass]
  · intro f hf hnone
    rw [List.any_eq_true]
    constructor
    · rintro ⟨cf, hcf, hbeq⟩
      obtain ⟨hmem, hp⟩ := List.mem_filter.mp hcf
      refine ⟨cf, hmem, by simpa using hp, ?_⟩
      have : cf.sourceId = f.sourceId := by simpa using hbeq
      rw [this, hnone]
    · rintro ⟨cf, hmem, hft, hsid⟩
      refine ⟨cf, List.mem_filter.mpr ⟨hmem, by simpa using hft⟩, ?_⟩
      rw [hsid, hnone]
      rfl

/-- Membership in the deduplication accumulator loop. -/
theorem mem_firstDedupAux (a : String) (seen l : List String) :
    a ∈ firstDedupAux seen l ↔ a ∈ l ∧ a ∉ seen := by
  induction l generalizing seen with
  | nil => simp [firstDedupAux]
  | cons x xs ih =>
    rw [firstDedupAux]
    by_cases hx : x ∈ seen
    · rw [if_pos (by simpa using hx), ih]
      constructor
      · rintro ⟨h1, h2⟩
        exact ⟨List.mem_cons_of_mem _ h1, h2⟩
      · rintro ⟨h1, h2⟩
        rcases List.mem_cons.mp h1 with rfl | h1
        · exact absurd hx h2
        · exact ⟨h1, h2⟩
    · rw [if_neg (by simpa using hx)]
      constructor
      · intro hmem
        rcases List.mem_cons.mp hmem with rfl | hmem
        · exact ⟨List.mem_cons_self _ _, by simpa using hx⟩
        · obtain ⟨h1, h2⟩ := (ih _).mp hmem
          have h2x : a ≠ x ∧ a ∉ seen := by
            rw [List.mem_cons] at h2
            push_neg at h2
            exact h2
          exact ⟨List.mem_cons_of_mem _ h1, h2x.2⟩
      · rintro ⟨h1, h2⟩
        rcases List.mem_cons.mp h1 with rfl | h1
        · exact List.mem_cons_self _ _
        · by_cases hax : a = x
          · subst hax
            exact List.mem_cons_self _ _
          · refine List.mem_cons_of_mem _ ((ih _).mpr ⟨h1, ?_⟩)
            rw [List.mem_cons]
            push_neg
            exact ⟨hax, h2⟩

/-- The deduplication loop yields no duplicates. -/
theorem nodup_firstDedupAux (seen l : List String) : (firstDedupAux seen l).Nodup := by
  induction l generalizing seen with
  | nil => rw [firstDedupAux]; exact List.nodup_nil
  | cons x xs ih =>
    rw [firstDedupAux]
    by_cases hx : x ∈ seen
    · rw [if_pos (by simpa using hx)]
      exact ih seen
    · rw [if_neg (by simpa using hx)]
      refine List.nodup_cons.mpr ⟨?_, ih (x :: seen)⟩
      intro hmem
      exact ((mem_firstDedupAux x (x :: seen) xs).mp hmem).2 (List.mem_cons_self x seen)

/-- `firstDedup` preserves membership. -/
theorem mem_firstDedup (a : String) (l : List String) : a ∈ firstDedup l ↔ a ∈ l := by
  simp [firstDedup, mem_firstDedupAux]

/-- `firstDedup` has no duplicates. -/
theorem nodup_firstDedup (l : List String) : (firstDedup l).Nodup :=
  nodup_firstDedupAux [] l

/-- A successful pack loop issues exactly one query per pack in its list. -/
theorem loopPacks_log (g : Game) (entries : List ABCFeatureEntryData)
    (ps : List String) (docs : List ItemDoc) (log : List (String × List ItemId))
    (h : loopPacks g entries ps = .ok (docs, log)) : log.map Prod.fst = ps := by
  induction ps generalizing docs log with
  | nil =>
    simp only [loopPacks] at h
    cases h
    rfl
  | cons p ps ih =>
    simp only [loopPacks] at h
    cases hf : fetchPack g entries p with
    | error e => rw [hf] at h; cases h
    | ok fetched =>
      rw [hf] at h
      cases hl : loopPacks g entries ps with
      | error e => rw [hl] at h; cases h
      | ok pr =>
        rw [hl] at h
        cases h
        simpa using ih pr.1 pr.2 (by rw [hl])

/-- C6: a successful `getFromCompendium` issues exactly one batched query per
distinct pack name referenced by the entries — the query log lists the
distinct pack names in first-occurrence order, without repetition, and covers
exactly the referenced names. -/
theorem c6_one_query_per_pack (g : Game) (entries : List ABCFeatureEntryData)
    (docs : List ItemDoc) (log : List (String × List ItemId))
    (h : getFromCompendiumLogged g entries = .ok (docs, log)) :
    log.map Prod.fst = firstDedup (entries.map (fun e => e.pack.getD "")) ∧
    (log.map Prod.fst).Nodup ∧
    ∀ p, p ∈ log.map Prod.fst ↔ p ∈ entries.map (fun e => e.pack.getD "") := by
  have hlog := loopPacks_log g entries _ docs log h
  refine ⟨hlog, ?_, ?_⟩
  · rw [hlog]
    exact nodup_firstDedup _
  · intro p
    rw [hlog]
    exact mem_firstDedup p _

/-- C9 witness: a window feature with no source identity is suppressed by an
unrelated attached class feature that also has no source identity, so the
concrete sync adds nothing. -/
theorem c9_duplicate_filter_absent_ids_witness :
    getClassFeaturesForLevel gC9 clsC9 actorC9.level 2 0 = .ok (wsC9, 1) ∧
    ensureClassFeaturesForLevel gC9 actorC9 2 0 = .ok (actorC9, 1) ∧
    ∀ f ∈ wsC9, f.sourceId = none →
      (((actorC9.feats.filter (fun x => x.featType == "classfeature")).any
          (fun cf => cf.sourceId == f.sourceId) = true) ↔
        ∃ cf ∈ actorC9.feats, cf.featType = "classfeature" ∧ cf.sourceId = none) :=
  ⟨by rfl, by rfl,
    (c9_duplicate_filter_absent_ids gC9 actorC9 2 clsC9 0 1 wsC9 rfl (by decide) (by rfl)).2⟩

/-- C6 witness: five entries on "feats-srd" plus two on "feats-extra" cause
exactly two batched queries, one per distinct pack. -/
theorem c6_one_query_per_pack_witness :
    getFromCompendiumLogged g6 entries6 = .ok ([], log6) ∧
    log6.map Prod.fst = firstDedup (entries6.map (fun e => e.pack.getD "")) ∧
    (log6.map Prod.fst).Nodup ∧
    (∀ p, p ∈ log6.map Prod.fst ↔ p ∈ entries6.map (fun e => e.pack.getD "")) ∧
    entries6.length = 7 ∧ log6.length = 2 := by
  refine ⟨by rfl, ?_, ?_, ?_, by decide, by decide⟩
  · exact (c6_one_query_per_pack g6 entries6 [] log6 (by rfl)).1
  · exact (c6_one_query_per_pack g6 entries6 [] log6 (by rfl)).2.1
  · exact (c6_one_query_per_pack g6 entries6 [] log6 (by rfl)).2.2

/-- Every document returned by a successful pack loop came from one of the
listed packs, through the level-override loop. -/
theorem mem_loopPacks (g : Game) (entries : List ABCFeatureEntryData)
    (ps : List String) (docs : List ItemDoc) (log : List (String × List ItemId))
    (h : loopPacks g entries ps = .ok (docs, log)) (d : ItemDoc) (hd : d ∈ docs) :
    ∃ p ∈ ps, ∃ fetched, fetchPack g entries p = .ok fetched ∧
      d ∈ overrideLevels entries fetched := by
  induction ps generalizing docs log with
  | nil =>
    simp only [loopPacks] at h
    cases h
    exact absurd hd (List.not_mem_nil d)
  | cons p ps ih =>
    simp only [loopPacks] at h
    cases hf : fetchPack g entries p with
    | error e => rw [hf] at h; cases h
    | ok fetched =>
      rw [hf] at h
      cases hl : loopPacks g entries ps with
      | error e => rw [hl] at h; cases h
      | ok pr =>
        rw [hl] at h
        cases h
        rcases List.mem_append.mp hd with hd1 | hd2
        · exact ⟨p, List.mem_cons_self p ps, fetched, hf, hd1⟩
        · obtain ⟨q, hq, fe, hfe, hdfe⟩ := ih pr.1 pr.2 (by rw [hl]) hd2
          exact ⟨q, List.mem_cons_of_mem p hq, fe, hfe, hdfe⟩

/-- The override loop writes the matching entry's level into both the raw
level field and the derived data of every class-feature document. -/
theorem overrideLevels_spec (entries : List ABCFeatureEntryData) (ds : List ItemDoc)
    (d : ItemDoc) (hd : d ∈ overrideLevels entries ds) (fd : FeatDocument)
    (hfd : d = .feat fd) (hcf : fd.source.featType = "classfeature")
    (e : ABCFeatureEntryData)
    (hfind : entries.find? (fun x => x.id == fd.source._id) = some e) :
    fd.source.level = e.level ∧ fd.preparedLevel = e.level := by
  subst hfd
  unfold overrideLevels at hd
  obtain ⟨d0, hd0, hmap⟩ := List.mem_map.mp hd
  cases d0 with
  | other i s => rw [overrideOne] at hmap; cases hmap
  | feat d1 =>
    rw [overrideOne] at hmap
    split at hmap
    · rename_i entry heq
      split at hmap
      · rename_i hft
        cases hmap
        simp only [FeatDocument.prepareData] at hfind ⊢
        rw [heq] at hfind
        cases hfind
        exact ⟨rfl, rfl⟩
      · rename_i hft
        cases hmap
        exact absurd (by simpa using hcf) hft
    · rename_i heq
      cases hmap
      rw [heq] at hfind
      cases hfind

/-- C5: after a successful `getFromCompendium`, every returned class-feature
document that matches a FeatureEntry by record identity carries the entry's
level both in its raw level field and in its derived (prepared) data — the
override happened before the derived fields were finalized. -/
theorem c5_level_override_before_derived (g : Game) (entries : List ABCFeatureEntryData)
    (docs : List ItemDoc) (log : List (String × List ItemId))
    (h : getFromCompendiumLogged g entries = .ok (docs, log))
    (fd : FeatDocument) (hd : ItemDoc.feat fd ∈ docs)
    (hcf : fd.source.featType = "classfeature")
    (e : ABCFeatureEntryData)
    (hfind : entries.find? (fun x => x.id == fd.source._id) = some e) :
    fd.source.level = e.level ∧ fd.preparedLevel = e.level := by
  obtain ⟨p, hp, fetched, hf, hdo⟩ := mem_loopPacks g entries _ docs log h _ hd
  exact overrideLevels_spec entries fetched _ hdo fd rfl hcf e hfind

/-- C5 witness: the Zeta record (native level 7) referenced by a level-3 entry
comes back from `getFromCompendium` with level 3 in both its raw and derived
data. -/
theorem c5_level_override_before_derived_witness :
    getFromCompendiumLogged gSort clsSort.items =
      .ok (docs5, [("P", [.str "z", .str "b", .str "a"])]) ∧
    clsSort.items.find? (fun x => x.id == fd5.source._id) = some ⟨some "P", .str "z", 3⟩ ∧
    fd5.source.level = 3 ∧ fd5.preparedLevel = 3 :=
  ⟨by rfl, by rfl,
    c5_level_override_before_derived gSort clsSort.items docs5
      [("P", [.str "z", .str "b", .str "a"])] (by rfl) fd5 (by simp [docs5]) (by rfl)
      ⟨some "P", .str "z", 3⟩ (by rfl)⟩

/-- A non-feat document anywhere in the fetched batch aborts the compendium
clone step with `invalidReference`. -/
theorem cloneCompendiumFeats_bad (loc : ItemId) (docs : List ItemDoc)
    (hbad : ∃ d ∈ docs, d.isFeat = false) (n : Nat) :
    cloneCompendiumFeats loc docs n = .error .invalidReference := by
  induction docs generalizing n with
  | nil =>
    obtain ⟨d, hd, _⟩ := hbad
    exact absurd hd (List.not_mem_nil d)
  | cons d rest ih =>
    cases d with
    | other i s => rw [cloneCompendiumFeats]
    | feat d1 =>
      obtain ⟨b, hb, hbf⟩ := hbad
      rcases List.mem_cons.mp hb with rfl | hb2
      · simp [ItemDoc.isFeat] at hbf
      · rw [cloneCompendiumFeats, ih ⟨b, hb2, hbf⟩ (n + 1)]

/-- Cloning an all-feat batch succeeds, consumes one generated id per
document, and yields features keyed by the document's source data with the
location stamped. -/
theorem cloneCompendiumFeats_ok (loc : ItemId) (docs : List ItemDoc)
    (h : ∀ d ∈ docs, d.isFeat = true) (n : Nat) :
    ∃ out : List FeatSource,
      cloneCompendiumFeats loc docs n = .ok (out, n + docs.length) ∧
      out.map featKey = docs.map (fun d =>
        (d.sourceOf.name, d.sourceOf.level, d.sourceOf.featType, some loc)) := by
  induction docs generalizing n with
  | nil => exact ⟨[], by simp [cloneCompendiumFeats], rfl⟩
  | cons d rest ih =>
    cases d with
    | other i s =>
      have := h (.other i s) (List.mem_cons_self _ _)
      simp [ItemDoc.isFeat] at this
    | feat d1 =>
      obtain ⟨out1, hclone, hmap⟩ := ih (fun x hx => h x (List.mem_cons_of_mem _ hx)) (n + 1)
      refine ⟨{ d1.source with _id := .fresh n, location := some loc } :: out1, ?_, ?_⟩
      · have harith : n + 1 + rest.length = n + (ItemDoc.feat d1 :: rest).length := by
          simp only [List.length_cons]
          omega
        rw [cloneCompendiumFeats, hclone, harith]
      · simp [featKey, ItemDoc.sourceOf, hmap]

/-- A world-item entry resolving to a missing or non-feat record aborts the
world-item clone step with `invalidReference`. -/
theorem cloneGameFeats_bad (g : Game) (es : List ABCFeatureEntryData)
    (hbad : ∃ e ∈ es, ∀ fd, g.items e.id ≠ some (.feat fd)) (n : Nat) :
    cloneGameFeats g es n = .error .invalidReference := by
  induction es generalizing n with
  | nil =>
    obtain ⟨e, he, _⟩ := hbad
    exact absurd he (List.not_mem_nil e)
  | cons e rest ih =>
    rw [cloneGameFeats]
    cases hit : g.items e.id with
    | none => rfl
    | some doc =>
      cases doc with
      | other i s => rfl
      | feat fd =>
        obtain ⟨b, hb, hbf⟩ := hbad
        rcases List.mem_cons.mp hb with rfl | hb2
        · exact absurd hit (hbf fd)
        · rw [ih ⟨b, hb2, hbf⟩ (n + 1)]

/-- The pack loop succeeds whenever every listed pack is registered. -/
theorem loopPacks_ok (g : Game) (entries : List ABCFeatureEntryData) (ps : List String)
    (hp : ∀ p ∈ ps, ∃ ds, g.packs p = some ds) :
    ∃ docs log, loopPacks g entries ps = .ok (docs, log) := by
  induction ps with
  | nil => exact ⟨[], [], rfl⟩
  | cons p ps ih =>
    obtain ⟨ds, hds⟩ := hp p (List.mem_cons_self p ps)
    obtain ⟨docs, log, hl⟩ := ih (fun q hq => hp q (List.mem_cons_of_mem p hq))
    have hf : fetchPack g entries p =
        .ok (ds.filter (fun d => (entryIdsFor entries p).contains d.docId)) := by
      unfold fetchPack
      rw [hds]
    exact ⟨overrideLevels entries (ds.filter (fun d => (entryIdsFor entries p).contains d.docId)) ++ docs,
      (p, entryIdsFor entries p) :: log, by rw [loopPacks, hf, hl]⟩

/-- Everything the override loop produces for a listed pack ends up in the
output of a successful pack loop. -/
theorem loopPacks_pack_output (g : Game) (entries : List ABCFeatureEntryData)
    (ps : List String) (docs : List ItemDoc) (log : List (String × List ItemId))
    (h : loopPacks g entries ps = .ok (docs, log)) (p : String) (hp : p ∈ ps) :
    ∃ fetched, fetchPack g entries p = .ok fetched ∧
      ∀ d ∈ overrideLevels entries fetched, d ∈ docs := by
  induction ps generalizing docs log with
  | nil => exact absurd hp (List.not_mem_nil p)
  | cons q ps ih =>
    simp only [loopPacks] at h
    cases hf : fetchPack g entries q with
    | error e => rw [hf] at h; cases h
    | ok fetched =>
      rw [hf] at h
      cases hl : loopPacks g entries ps with
      | error e => rw [hl] at h; cases h
      | ok pr =>
        rw [hl] at h
        cases h
        rcases List.mem_cons.mp hp with rfl | hp2
        · exact ⟨fetched, hf, fun d hd => List.mem_append.mpr (Or.inl hd)⟩
        · obtain ⟨fe, hfe, hsub⟩ := ih pr.1 pr.2 (by rw [hl]) hp2
          exact ⟨fe, hfe, fun d hd => List.mem_append.mpr (Or.inr (hsub d hd))⟩

/-- C8: if any entry resolves to a record that is not of the expected feature
shape (a wrong-shape document under its id in its pack, or a wrong-shape
world item), the whole resolution call fails with `invalidReference` — no
partial feature sequence is returned — and `addFeatures` on a build with
those entries fails the same way before any attach is performed. -/
theorem c8_invalid_reference_aborts (g : Game) (entries : List ABCFeatureEntryData)
    (hpacks : ∀ e ∈ entries, packTruthy e = true → ∃ ds, g.packs (e.pack.getD "") = some ds)
    (hbad : ∃ e ∈ entries,
      (packTruthy e = true ∧ ∃ ds, g.packs (e.pack.getD "") = some ds ∧
        ∃ d ∈ ds, d.docId = e.id ∧ d.isFeat = false) ∨
      (packTruthy e = false ∧ ∃ i s, g.items e.id = some (.other i s))) :
    (∀ loc n, getFeatures g entries loc n = .error .invalidReference) ∧
    ∀ kind src actor opts n, ABCSourceData.items src = entries →
      addFeatures g kind src actor true opts n = .error .invalidReference := by
  have hmain : ∀ loc n, getFeatures g entries loc n = .error .invalidReference := by
    intro loc n
    have hne : entries ≠ [] := by
      obtain ⟨e, he, _⟩ := hbad
      exact List.ne_nil_of_mem he
    have hlen : entries.length > 0 := List.length_pos.mpr hne
    simp only [getFeatures]
    rw [if_pos hlen]
    by_cases hpe : (entries.filter packTruthy).length > 0
    · rw [if_pos hpe]
      have hpacksall : ∀ p ∈ firstDedup ((entries.filter packTruthy).map
          (fun e => e.pack.getD "")), ∃ ds, g.packs p = some ds := by
        intro p hpm
        obtain ⟨e, he, hpe2⟩ := List.mem_map.mp ((mem_firstDedup p _).mp hpm)
        obtain ⟨he2, hpt⟩ := List.mem_filter.mp he
        rw [← hpe2]
        exact hpacks e he2 hpt
      obtain ⟨docs, log, hlp⟩ := loopPacks_ok g (entries.filter packTruthy) _ hpacksall
      have hgc : getFromCompendium g (entries.filter packTruthy) = .ok docs := by
        unfold getFromCompendium getFromCompendiumLogged
        rw [hlp]
        rfl
      rw [hgc]
      by_cases hbd : ∃ d ∈ docs, d.isFeat = false
      · simp only [cloneCompendiumFeats_bad loc docs hbd n]
      · have hall : ∀ d ∈ docs, d.isFeat = true := by
          intro d hd
          cases hdf : d.isFeat with
          | false => exact absurd ⟨d, hd, hdf⟩ hbd
          | true => rfl
        obtain ⟨out, hout, _⟩ := cloneCompendiumFeats_ok loc docs hall n
        simp only [hout]
        obtain ⟨e, he, hcase⟩ := hbad
        rcases hcase with ⟨hpt, ds, hds, d, hd, hid, hnf⟩ | ⟨hpt, i, s, hit⟩
        · exfalso
          have hef : e ∈ entries.filter packTruthy := List.mem_filter.mpr ⟨he, hpt⟩
          have hpm : (e.pack.getD "") ∈ firstDedup ((entries.filter packTruthy).map
              (fun x => x.pack.getD "")) := by
            rw [mem_firstDedup]
            exact List.mem_map.mpr ⟨e, hef, rfl⟩
          obtain ⟨fetched, hfp, hsub⟩ := loopPacks_pack_output g _ _ docs log hlp _ hpm
          have hfp2 : fetchPack g (entries.filter packTruthy) (e.pack.getD "") =
              .ok (ds.filter (fun x =>
                (entryIdsFor (entries.filter packTruthy) (e.pack.getD "")).contains x.docId)) := by
            unfold fetchPack
            rw [hds]
          rw [hfp2] at hfp
          cases hfp
          have hmemid : e.id ∈ entryIdsFor (entries.filter packTruthy) (e.pack.getD "") := by
            unfold entryIdsFor
            refine List.mem_map.mpr ⟨e, ?_, rfl⟩
            refine List.mem_filter.mpr ⟨hef, ?_⟩
            simp
          have hdin : d ∈ ds.filter (fun x =>
              (entryIdsFor (entries.filter packTruthy) (e.pack.getD "")).contains x.docId) := by
            refine List.mem_filter.mpr ⟨hd, ?_⟩
            rw [hid]
            simpa using hmemid
          cases d with
          | feat fd => simp [ItemDoc.isFeat] at hnf
          | other i2 s2 =>
            have hdo : ItemDoc.other i2 s2 ∈
                overrideLevels (entries.filter packTruthy) (ds.filter (fun x =>
                  (entryIdsFor (entries.filter packTruthy) (e.pack.getD "")).contains x.docId)) := by
              unfold overrideLevels
              exact List.mem_map.mpr ⟨.other i2 s2, hdin, by rw [overrideOne]⟩
            exact hbd ⟨_, hsub _ hdo, rfl⟩
        · have hgb : ∃ e2 ∈ entries.filter (fun x => !packTruthy x),
              ∀ fd, g.items e2.id ≠ some (.feat fd) := by
            refine ⟨e, List.mem_filter.mpr ⟨he, by simp [hpt]⟩, ?_⟩
            intro fd hfd
            rw [hit] at hfd
            cases hfd
          simp only [cloneGameFeats_bad g _ hgb (n + docs.length)]
    · rw [if_neg hpe]
      obtain ⟨e, he, hcase⟩ := hbad
      rcases hcase with ⟨hpt, _⟩ | ⟨hpt, i, s, hit⟩
      · exact absurd (List.length_pos.mpr
          (List.ne_nil_of_mem (List.mem_filter.mpr ⟨he, hpt⟩))) hpe
      · have hgb : ∃ e2 ∈ entries.filter (fun x => !packTruthy x),
            ∀ fd, g.items e2.id ≠ some (.feat fd) := by
          refine ⟨e, List.mem_filter.mpr ⟨he, by simp [hpt]⟩, ?_⟩
          intro fd hfd
          rw [hit] at hfd
          cases hfd
        simp only [cloneGameFeats_bad g _ hgb n]
  refine ⟨hmain, ?_⟩
  intro kind src actor opts n hsrc
  simp only [addFeatures, hsrc, if_true]
  rw [hmain (ItemId.fresh n) (n + 1)]

/-- C8 witness: a batch with wrong-shape records aborts resolution and the
ancestry attach with `invalidReference`. -/
theorem c8_invalid_reference_aborts_witness :
    getFeatures g8 entries8 (ItemId.str "X") 0 = .error .invalidReference ∧
    addFeatures g8 .ancestry src8 actor8 true none 0 = .error .invalidReference := by
  have hp : ∀ e ∈ entries8, packTruthy e = true →
      ∃ ds, g8.packs (e.pack.getD "") = some ds := by
    intro e he hpt
    rcases List.mem_cons.mp he with rfl | he2
    · exact ⟨[.other (.str "bad1") (some "acid-splash")], rfl⟩
    · rcases List.mem_cons.mp he2 with rfl | he3
      · simp [packTruthy] at hpt
      · exact absurd he3 (List.not_mem_nil _)
  have hb : ∃ e ∈ entries8,
      (packTruthy e = true ∧ ∃ ds, g8.packs (e.pack.getD "") = some ds ∧
        ∃ d ∈ ds, d.docId = e.id ∧ d.isFeat = false) ∨
      (packTruthy e = false ∧ ∃ i s, g8.items e.id = some (.other i s)) := by
    refine ⟨⟨some "P", .str "bad1", 1⟩, List.mem_cons_self _ _, Or.inl ?_⟩
    exact ⟨by decide, [.other (.str "bad1") (some "acid-splash")], rfl,
      .other (.str "bad1") (some "acid-splash"), List.mem_cons_self _ _, rfl, rfl⟩
  exact ⟨(c8_invalid_reference_aborts g8 entries8 hp hb).1 (ItemId.str "X") 0,
    (c8_invalid_reference_aborts g8 entries8 hp hb).2 .ancestry src8 actor8 none 0 rfl⟩

/-- One assurance substitution step: a hit at index `i` substitutes the
fetched variant (fresh id, original location) in place. -/
theorem applyAssurance_single (g : Game) (items : List ItemSourcePF2e) (skill : String)
    (n i : Nat) (v : ItemSourcePF2e)
    (hidx : items.findIdx? (fun it => it.slugOf == some "assurance") = some i)
    (hfetch : getItemSource g "pf2e.feats-srd" ("Assurance (" ++ skill ++ ")") = .ok v) :
    applyAssurance g items [skill] n =
      .ok (items.set i ((v.setId (.fresh n)).setLocation
        ((items.getD i dummyItem).locationOf)), n + 1) := by
  simp [applyAssurance, hidx, hfetch]

/-- C4: attaching an Ancestry or Background with an assurance option replaces
the first batch item whose slug is "assurance" in place, at the same index:
the replacement is the variant fetched by name with a freshly generated
identity distinct from the original's, the original's location is preserved
on it, the batch length is unchanged, and every other index is untouched. -/
theorem c4_assurance_substitution (g : Game) (kind : ABKind) (src : ABCSourceData)
    (actor : Character) (skill : String) (n n2 : Nat) (feats : List FeatSource)
    (items : List ItemSourcePF2e) (i : Nat) (f : FeatSource)
    (hres : getFeatures g src.items (ItemId.fresh n) (n + 1) = .ok (feats, n2))
    (hitems : items = mkAB kind { src with _id := ItemId.fresh n } ::
      feats.map ItemSourcePF2e.featS)
    (hidx : items.findIdx? (fun it => it.slugOf == some "assurance") = some i)
    (hfetch : getItemSource g "pf2e.feats-srd" ("Assurance (" ++ skill ++ ")") =
      .ok (.featS f))
    (horig : (items.getD i dummyItem).idOf ≠ ItemId.fresh n2) :
    ∃ newItem,
      addFeatures g kind src actor true (some ⟨some [skill]⟩) n =
        .ok (createEmbedded actor (items.set i newItem), n2 + 1) ∧
      newItem.idOf = ItemId.fresh n2 ∧
      newItem.idOf ≠ (items.getD i dummyItem).idOf ∧
      newItem.locationOf = (items.getD i dummyItem).locationOf ∧
      i < items.length ∧
      (items.set i newItem).length = items.length ∧
      ∀ j, j ≠ i → (items.set i newItem).getD j dummyItem = items.getD j dummyItem := by
  refine ⟨((ItemSourcePF2e.featS f).setId (.fresh n2)).setLocation
    ((items.getD i dummyItem).locationOf), ?_, rfl, ?_, rfl, ?_, ?_, ?_⟩
  · have hitems2 : [mkAB kind { src with _id := ItemId.fresh n }] ++
        feats.map ItemSourcePF2e.featS = items := by
      rw [hitems]
      rfl
    have hsingle := applyAssurance_single g items skill n2 i (.featS f) hidx hfetch
    simp only [addFeatures, if_true]
    rw [hres]
    simp only [hitems2]
    rw [hsingle]
  · simpa [ItemSourcePF2e.setId, ItemSourcePF2e.setLocation, ItemSourcePF2e.idOf]
      using Ne.symm horig
  · exact (List.findIdx?_eq_some_iff_findIdx_eq.mp hidx).1
  · exact List.length_set items i _
  · intro j hj
    simp only [List.getD_eq_getElem?_getD]
    rw [List.getElem?_set_ne (Ne.symm hj)]

/-- C4 witness: resolving an Ancestry with one "assurance" entry under
`assuranceSkills = ["Stealth"]` yields exactly one resolved feature named
"Assurance (Stealth)", substituted in place with the original's location and
a fresh distinct identity. -/
theorem c4_assurance_substitution_witness :
    (∃ newItem,
      addFeatures gA .ancestry srcA actorA true (some ⟨some ["Stealth"]⟩) 0 =
        .ok (createEmbedded actorA (itemsA.set 1 newItem), 3) ∧
      newItem.idOf = ItemId.fresh 2 ∧
      newItem.idOf ≠ (itemsA.getD 1 dummyItem).idOf ∧
      newItem.locationOf = (itemsA.getD 1 dummyItem).locationOf ∧
      1 < itemsA.length ∧
      (itemsA.set 1 newItem).length = itemsA.length ∧
      ∀ j, j ≠ 1 → (itemsA.set 1 newItem).getD j dummyItem = itemsA.getD j dummyItem) ∧
    Except.map (fun r => r.1.2.map (fun it => (it.itemName, it.locationOf)))
        (addFeatures gA .ancestry srcA actorA true (some ⟨some ["Stealth"]⟩) 0) =
      .ok [("", none), ("Assurance (Stealth)", some (.fresh 0))] :=
  ⟨c4_assurance_substitution gA .ancestry srcA actorA "Stealth" 0 2 [cloneA] itemsA 1
    variantA (by rfl) rfl (by rfl) (by rfl) (by decide), by rfl⟩

/-- Code-point comparison is total. -/
theorem charListLe_total (as : List Char) : ∀ bs,
    charListLe as bs = true ∨ charListLe bs as = true := by
  induction as with
  | nil => intro bs; exact Or.inl rfl
  | cons a as ih =>
    intro bs
    cases bs with
    | nil => exact Or.inr rfl
    | cons b bs =>
      rw [charListLe, charListLe]
      rcases Nat.lt_trichotomy a.toNat b.toNat with h1 | h1 | h1
      · left
        rw [if_pos h1]
      · rw [if_neg (by omega), if_neg (by omega), if_neg (by omega), if_neg (by omega)]
        exact ih bs
      · right
        rw [if_pos h1]

/-- Code-point comparison is transitive. -/
theorem charListLe_trans (as : List Char) : ∀ bs cs, charListLe as bs = true →
    charListLe bs cs = true → charListLe as cs = true := by
  induction as with
  | nil => intro bs cs _ _; rfl
  | cons a as ih =>
    intro bs cs h1 h2
    cases bs with
    | nil => rw [charListLe] at h1; cases h1
    | cons b bs =>
      cases cs with
      | nil => rw [charListLe] at h2; cases h2
      | cons c cs =>
        rw [charListLe] at h1 h2 ⊢
        by_cases hab : a.toNat < b.toNat
        · by_cases hbc : b.toNat < c.toNat
          · rw [if_pos (by omega)]
          · by_cases hcb : c.toNat < b.toNat
            · rw [if_neg hbc, if_pos hcb] at h2
              cases h2
            · rw [if_pos (by omega)]
        · by_cases hba : b.toNat < a.toNat
          · rw [if_neg hab, if_pos hba] at h1
            cases h1
          · by_cases hbc : b.toNat < c.toNat
            · rw [if_pos (by omega)]
            · by_cases hcb : c.toNat < b.toNat
              · rw [if_neg hbc, if_pos hcb] at h2
                cases h2
              · rw [if_neg (by omega), if_neg (by omega)]
                rw [if_neg hab, if_neg hba] at h1
                rw [if_neg hbc, if_neg hcb] at h2
                exact ih bs cs h1 h2

/-- The comparator relation of the class-branch sort is total. -/
theorem featLe_total (a b : FeatSource) : featLe a b = true ∨ featLe b a = true := by
  simp only [featLe, strLe, Bool.or_eq_true, Bool.and_eq_true, decide_eq_true_eq]
  rcases Nat.lt_trichotomy a.level b.level with h1 | h1 | h1
  · exact Or.inl (Or.inl h1)
  · rcases charListLe_total a.name.data b.name.data with h2 | h2
    · exact Or.inl (Or.inr ⟨h1, h2⟩)
    · exact Or.inr (Or.inr ⟨h1.symm, h2⟩)
  · exact Or.inr (Or.inl h1)

/-- The comparator relation of the class-branch sort is transitive. -/
theorem featLe_trans (a b c : FeatSource) (hab : featLe a b = true)
    (hbc : featLe b c = true) : featLe a c = true := by
  simp only [featLe, strLe, Bool.or_eq_true, Bool.and_eq_true, decide_eq_true_eq] at hab hbc ⊢
  rcases hab with h1 | ⟨h1, h2⟩ <;> rcases hbc with h3 | ⟨h3, h4⟩
  · exact Or.inl (h1.trans h3)
  · exact Or.inl (h3 ▸ h1)
  · exact Or.inl (h1 ▸ h3)
  · exact Or.inr ⟨h1.trans h3, charListLe_trans a.name.data b.name.data c.name.data h2 h4⟩

/-- C2 counterexample: class FeatureEntries with levels [3, 1, 1] and names
["Zeta", "Beta", "Alpha"] attach in the order Alpha(1), Beta(1), Zeta(3) —
not in the order Beta(1), Alpha(1), Zeta(3) stated by the claim's example,
because equal-level ties are broken by ascending lexicographic name order. -/
theorem c2_ordering_counterexample :
    Except.map (fun r => r.1.1.feats.map (fun f => f.name))
        (addABCItem gSort (.cls clsSort) actorSort none 0) =
      .ok ["Alpha", "Beta", "Zeta"] ∧
    (["Alpha", "Beta", "Zeta"] : List String) ≠ ["Beta", "Alpha", "Zeta"] :=
  ⟨by rfl, by decide⟩

/-- C2 (amended): the sequence attached by the Class branch is the feature
list sorted by level ascending with equal-level ties broken by ascending
lexicographic name order (so the claim's example attaches as Alpha(1),
Beta(1), Zeta(3)), followed by the class record itself. -/
theorem c2_sorted_by_level_then_name (g : Game) (c : ClassSource) (actor : Character)
    (opts : Option ABCManagerOptions) (n : Nat) (a1 : Character)
    (created : List ItemSourcePF2e) (n2 : Nat)
    (h : addABCItem g (.cls c) actor opts n = .ok ((a1, created), n2)) :
    ∃ fs : List FeatSource, ∃ c1 : ClassSource,
      created = fs.map ItemSourcePF2e.featS ++ [.cls c1] ∧
      fs.Pairwise (fun a b => a.level < b.level ∨
        (a.level = b.level ∧ strLe a.name b.name = true)) := by
  simp only [addABCItem] at h
  split at h
  · cases h
  · rename_i itemsToCreate n3 heq
    cases h
    refine ⟨List.insertionSort (fun a b => featLe a b = true) itemsToCreate, _, rfl, ?_⟩
    haveI htot : IsTotal FeatSource (fun a b => featLe a b = true) := ⟨featLe_total⟩
    haveI htr : IsTrans FeatSource (fun a b => featLe a b = true) := ⟨featLe_trans⟩
    have hs := List.sorted_insertionSort (fun a b => featLe a b = true) itemsToCreate
    refine hs.imp ?_
    intro a b hab
    simpa only [featLe, Bool.or_eq_true, Bool.and_eq_true, decide_eq_true_eq] using hab

/-- C2 witness: the concrete Zeta/Beta/Alpha class attaches its features in
the order Alpha(1), Beta(1), Zeta(3) followed by the class record, and that
sequence is sorted by (level, name). -/
theorem c2_sorted_by_level_then_name_witness :
    addABCItem gSort (.cls clsSort) actorSort none 0 = .ok ((a1C2, createdC2), 4) ∧
    (∃ fs : List FeatSource, ∃ c1 : ClassSource,
      createdC2 = fs.map ItemSourcePF2e.featS ++ [.cls c1] ∧
      fs.Pairwise (fun a b => a.level < b.level ∨
        (a.level = b.level ∧ strLe a.name b.name = true))) ∧
    createdC2.map ItemSourcePF2e.itemName = ["Alpha", "Beta", "Zeta", ""] :=
  ⟨by rfl,
    c2_sorted_by_level_then_name gSort clsSort actorSort none 0 a1C2 createdC2 4 (by rfl),
    by rfl⟩

/-- C7 counterexample: at level 1 with class features granted at levels
{1, 2, 3, 5} where the level-3 grant is a world-item reference to a feat of
native level 1, syncing up to 5 and back down to 1 leaves that feature
attached: the final class-feature set is not the level-1 set. -/
theorem c7_round_trip_counterexample :
    Except.map (fun r => r.1.feats.map (fun f => (f.name, f.level)))
        (match syncClassFeatures gC7 actorC7 5 0 with
         | .ok (a1, n1) => syncClassFeatures gC7 a1 1 n1
         | .error e => .error e) =
      .ok [("One", 1), ("LocalThree", 1)] ∧
    ([("One", 1), ("LocalThree", 1)] : List (String × Nat)) ≠ [("One", 1)] :=
  ⟨by rfl, by decide⟩

/-- The downward branch of the synchronizer: with an attached class and a
target level below the current one, it deletes exactly the attached class
features above the target level. -/
theorem ensure_down_eq (g : Game) (a : Character) (c : ClassSource) (m newLevel : Nat)
    (hclass : a.classItem = some c) (hlt : newLevel < a.level) :
    ensureClassFeaturesForLevel g a newLevel m = .ok (deleteEmbedded a
      ((((a.feats.filter (fun f => f.featType == "classfeature")).filter
        (fun f => decide (f.level > newLevel))).map (fun f => f._id))), m) := by
  unfold ensureClassFeaturesForLevel
  simp only [hclass]
  rw [if_neg (by omega), if_pos hlt]

/-- Deleting the over-level class features from an original set (all at or
below the threshold) extended by freshly identified features (class-tagged
ones all above the threshold) restores the original class-feature set. -/
theorem round_trip_filter (orig added : List FeatSource) (L : Nat)
    (hstart : ∀ f ∈ orig, f.featType = "classfeature" → f.level ≤ L)
    (hadded : ∀ f ∈ added, f.featType = "classfeature" → L < f.level)
    (hfresh : ∀ f ∈ added, ∀ f2 ∈ orig, f._id ≠ f2._id) :
    ((orig ++ added).filter (fun f =>
      !(((((orig ++ added).filter (fun x => x.featType == "classfeature")).filter
        (fun x => decide (x.level > L))).map (fun x => x._id)).contains f._id))).filter
      (fun f => f.featType == "classfeature") =
    orig.filter (fun f => f.featType == "classfeature") := by
  have htoDel : ∀ i : ItemId,
      ((((orig ++ added).filter (fun x => x.featType == "classfeature")).filter
        (fun x => decide (x.level > L))).map (fun x => x._id)).contains i = true ↔
      ∃ y, y ∈ orig ++ added ∧ y.featType = "classfeature" ∧ L < y.level ∧ y._id = i := by
    intro i
    simp only [List.contains, List.elem_eq_mem, List.mem_map, List.mem_filter,
      List.mem_append, decide_eq_true_eq, beq_iff_eq]
    constructor
    · rintro ⟨y, ⟨⟨hy, hcf⟩, hlvl⟩, hid⟩
      exact ⟨y, hy, hcf, hlvl, hid⟩
    · rintro ⟨y, hy, hcf, hlvl, hid⟩
      exact ⟨y, ⟨⟨hy, hcf⟩, hlvl⟩, hid⟩
  have hA : orig.filter (fun f =>
      !(((((orig ++ added).filter (fun x => x.featType == "classfeature")).filter
        (fun x => decide (x.level > L))).map (fun x => x._id)).contains f._id)) = orig := by
    rw [List.filter_eq_self]
    intro f hf
    rw [Bool.not_eq_true']
    rw [Bool.eq_false_iff]
    intro hmem
    obtain ⟨y, hy, hycf, hylvl, hyid⟩ := (htoDel f._id).mp hmem
    rcases List.mem_append.mp hy with hy1 | hy2
    · have := hstart y hy1 hycf
      omega
    · exact hfresh y hy2 f hf hyid
  have hB : (added.filter (fun f =>
      !(((((orig ++ added).filter (fun x => x.featType == "classfeature")).filter
        (fun x => decide (x.level > L))).map (fun x => x._id)).contains f._id))).filter
      (fun f => f.featType == "classfeature") = [] := by
    rw [List.filter_eq_nil_iff]
    intro f hf hcf
    obtain ⟨hfadded, hfdel⟩ := List.mem_filter.mp hf
    have hcf2 : f.featType = "classfeature" := by simpa using hcf
    have : ((((orig ++ added).filter (fun x => x.featType == "classfeature")).filter
        (fun x => decide (x.level > L))).map (fun x => x._id)).contains f._id = true :=
      (htoDel f._id).mpr ⟨f, List.mem_append.mpr (Or.inr hfadded), hcf2,
        hadded f hfadded hcf2, rfl⟩
    rw [this] at hfdel
    simp at hfdel
  rw [List.filter_append, List.filter_append, hA, hB, List.append_nil]

/-- C7 (amended): starting at level 1 with an attached Class, syncing up to 5
and back down to 1 restores exactly the level-1 attached class-feature set,
provided every `(1, 5]`-window feature resolves as a class feature carrying
its entry's level (> 1) — e.g. all window entries are repository references —
with identities fresh with respect to the attached items. -/
theorem c7_up_down_round_trip (g : Game) (actor : Character) (c : ClassSource)
    (n n' : Nat) (ws : List FeatSource)
    (hclass : actor.classItem = some c)
    (hlevel : actor.level = 1)
    (hstart : ∀ f ∈ actor.feats, f.featType = "classfeature" → f.level ≤ 1)
    (hres : getClassFeaturesForLevel g c 1 5 n = .ok (ws, n'))
    (hws : ∀ f ∈ ws, f.featType = "classfeature" → 1 < f.level)
    (hfresh : ∀ f ∈ ws, ∀ f2 ∈ actor.feats, f._id ≠ f2._id) :
    ∃ a1 a2, syncClassFeatures g actor 5 n = .ok (a1, n') ∧
      syncClassFeatures g a1 1 n' = .ok (a2, n') ∧
      a2.feats.filter (fun f => f.featType == "classfeature") =
        actor.feats.filter (fun f => f.featType == "classfeature") ∧
      a2.level = 1 := by
  have h1 : ensureClassFeaturesForLevel g actor 5 n =
      .ok ({ actor with feats := actor.feats ++ ws.filter (fun f =>
        !((actor.feats.filter (fun x => x.featType == "classfeature")).any
          (fun cf => cf.sourceId == f.sourceId))) }, n') := by
    unfold ensureClassFeaturesForLevel
    simp only [hclass]
    have hres2 : getClassFeaturesForLevel g c actor.level 5 n = .ok (ws, n') := by
      rw [hlevel]
      exact hres
    rw [if_pos (by omega : 5 > actor.level), hres2]
    simp only [createEmbedded, foldl_attach_featS]
    simp [hclass]
  obtain ⟨added, hadd⟩ : ∃ l, ws.filter (fun f =>
      !((actor.feats.filter (fun x => x.featType == "classfeature")).any
        (fun cf => cf.sourceId == f.sourceId))) = l := ⟨_, rfl⟩
  rw [hadd] at h1
  have haddsub : ∀ f ∈ added, f ∈ ws := by
    rw [← hadd]
    exact fun f hf => (List.mem_filter.mp hf).1
  refine ⟨{ actor with feats := actor.feats ++ added, level := 5 },
    { deleteEmbedded { actor with feats := actor.feats ++ added, level := 5 }
        ((((actor.feats ++ added).filter (fun f => f.featType == "classfeature")).filter
          (fun f => decide (f.level > 1))).map (fun f => f._id)) with level := 1 },
    ?_, ?_, ?_, ?_⟩
  · unfold syncClassFeatures
    rw [h1]
  · have h2 := ensure_down_eq g { actor with feats := actor.feats ++ added, level := 5 }
      c n' 1 hclass (by simp)
    unfold syncClassFeatures
    rw [h2]
  · simp only [deleteEmbedded]
    exact round_trip_filter actor.feats added 1 hstart
      (fun f hf => hws f (haddsub f hf)) (fun f hf => hfresh f (haddsub f hf))
  · rfl

/-- C7 witness: with all window grants resolved from the repository, syncing
a level-1 character up to 5 and back down to 1 restores exactly the level-1
class-feature set. -/
theorem c7_up_down_round_trip_witness :
    getClassFeaturesForLevel gC7w clsC7w 1 5 0 = .ok (wsC7w, 3) ∧
    (∃ a1 a2, syncClassFeatures gC7w actorC7w 5 0 = .ok (a1, 3) ∧
      syncClassFeatures gC7w a1 1 3 = .ok (a2, 3) ∧
      a2.feats.filter (fun f => f.featType == "classfeature") =
        actorC7w.feats.filter (fun f => f.featType == "classfeature") ∧
      a2.level = 1) ∧
    Except.map (fun r => r.1.feats.map (fun f => f.name))
        (match syncClassFeatures gC7w actorC7w 5 0 with
         | .ok (a1, n1) => syncClassFeatures gC7w a1 1 n1
         | .error e => .error e) = .ok ["WOne"] :=
  ⟨by rfl,
    c7_up_down_round_trip gC7w actorC7w clsC7w 0 3 wsC7w rfl rfl (by decide) (by rfl)
      (by decide) (by decide), by rfl⟩

/-- When the entry ids are duplicate-free, `find?` by id returns the entry
itself. -/
theorem find?_id_unique (l : List ABCFeatureEntryData)
    (hnodup : (l.map (fun e => e.id)).Nodup) (e : ABCFeatureEntryData) (he : e ∈ l) :
    l.find? (fun x => x.id == e.id) = some e := by
  induction l with
  | nil => cases he
  | cons a l ih =>
    rw [List.map_cons, List.nodup_cons] at hnodup
    by_cases ha : (a.id == e.id) = true
    · have haid : a.id = e.id := by simpa using ha
      rcases List.mem_cons.mp he with rfl | hel
      · exact List.find?_cons_of_pos _ ha
      · have hmem : a.id ∈ l.map (fun x => x.id) := by
          rw [haid]
          exact List.mem_map.mpr ⟨e, hel, rfl⟩
        exact absurd hmem hnodup.1
    · rcases List.mem_cons.mp he with rfl | hel
      · simp at ha
      · have ha2 : (a.id == e.id) = false := by simpa using ha
        rw [List.find?]
        simp only [ha2]
        exact ih hnodup.2 hel

/-- The deduplication loop drops everything already seen. -/
theorem firstDedupAux_all_seen (seen l : List String) (h : ∀ y ∈ l, y ∈ seen) :
    firstDedupAux seen l = [] := by
  induction l with
  | nil => rfl
  | cons x xs ih =>
    rw [firstDedupAux, if_pos (by simpa using h x (List.mem_cons_self x xs))]
    exact ih (fun y hy => h y (List.mem_cons_of_mem x hy))

/-- Deduplicating a nonempty constant list yields the singleton. -/
theorem firstDedup_all_eq (l : List String) (a : String) (hne : l ≠ [])
    (h : ∀ x ∈ l, x = a) : firstDedup l = [a] := by
  cases l with
  | nil => exact absurd rfl hne
  | cons x xs =>
    have hx : x = a := h x (List.mem_cons_self x xs)
    subst hx
    rw [firstDedup, firstDedupAux, if_neg (by simp)]
    rw [firstDedupAux_all_seen]
    intro y hy
    rw [h y (List.mem_cons_of_mem x hy)]
    exact List.mem_cons_self x []

/-- Attaching a feat batch followed by a class record appends the feats and
sets the class slot. -/
theorem foldl_attach_featS_cls (fs : List FeatSource) (k : ClassSource) (ch : Character) :
    (fs.map ItemSourcePF2e.featS ++ [ItemSourcePF2e.cls k]).foldl Character.attachOne ch =
      { ch with feats := ch.feats ++ fs, classItem := some k } := by
  rw [List.foldl_append, foldl_attach_featS]
  rfl

/-- Resolving a class's `(0, L]` window whose entries all reference one
registered pack, with duplicate-free ids each matching exactly one
classfeature document, succeeds and produces — up to reordering and fresh
identities — exactly one feature per window entry, carrying the entry's
level, the document's name and the class identity as location. -/
theorem resolve_single_pack_perm (g : Game) (c1 : ClassSource) (L n : Nat) (P : String)
    (packDocs : List ItemDoc) (docFor : ItemId → FeatDocument)
    (hP : P ≠ "")
    (hpackeq : g.packs P = some packDocs)
    (hpack : ∀ e ∈ windowEntries c1 0 L, e.pack = some P)
    (hnodupE : ((windowEntries c1 0 L).map (fun e => e.id)).Nodup)
    (hnodupD : (packDocs.map ItemDoc.docId).Nodup)
    (hdocFor : ∀ e ∈ windowEntries c1 0 L,
      ItemDoc.feat (docFor e.id) ∈ packDocs ∧ (docFor e.id).source._id = e.id ∧
      (docFor e.id).source.featType = "classfeature") :
    ∃ out n2, getClassFeaturesForLevel g c1 0 L n = .ok (out, n2) ∧
      List.Perm (out.map featKey) ((windowEntries c1 0 L).map (fun e =>
        ((docFor e.id).source.name, e.level, "classfeature", some c1._id))) ∧
      ∀ f ∈ out, f.featType = "classfeature" := by
  by_cases hL : 0 ≥ L
  · have hW : windowEntries c1 0 L = [] := by
      rw [windowEntries, List.filter_eq_nil_iff]
      intro e he
      simp only [Bool.and_eq_true, decide_eq_true_eq, not_and]
      omega
    refine ⟨[], n, ?_, by simp [hW], by simp⟩
    unfold getClassFeaturesForLevel
    rw [if_pos hL]
  · unfold getClassFeaturesForLevel
    rw [if_neg hL]
    by_cases hWnil : windowEntries c1 0 L = []
    · refine ⟨[], n, ?_, by simp [hWnil], by simp⟩
      rw [hWnil]
      rfl
    · rw [windowEntries] at *
      generalize hWdef : c1.items.filter
        (fun e => decide (L ≥ e.level) && decide (e.level > 0)) = W at *
      have hlen : W.length > 0 := List.length_pos.mpr hWnil
      have hpe : W.filter packTruthy = W := by
        rw [List.filter_eq_self]
        intro e he
        simp [packTruthy, hpack e he, hP]
      have hge : W.filter (fun e => !packTruthy e) = [] := by
        rw [List.filter_eq_nil_iff]
        intro e he
        simp [packTruthy, hpack e he, hP]
      have hmapP : ∀ x ∈ W.map (fun e => e.pack.getD ""), x = P := by
        intro x hx
        obtain ⟨e, he, hxe⟩ := List.mem_map.mp hx
        rw [← hxe, hpack e he]
        rfl
      have hded : firstDedup (W.map (fun e => e.pack.getD "")) = [P] :=
        firstDedup_all_eq _ P (fun h => hWnil (List.map_eq_nil_iff.mp h)) hmapP
      have hids : entryIdsFor W P = W.map (fun e => e.id) := by
        unfold entryIdsFor
        have hws : W.filter (fun e => e.pack.getD "" == P) = W := by
          rw [List.filter_eq_self]
          intro e he
          rw [hpack e he]
          simp
        rw [hws]
      have hfetch : fetchPack g W P = .ok (packDocs.filter (fun d =>
          (W.map (fun e => e.id)).contains d.docId)) := by
        unfold fetchPack
        rw [hpackeq, hids]
      have hpt : ∀ d ∈ packDocs.filter (fun d => (W.map (fun e => e.id)).contains d.docId),
          ∃ e, e ∈ W ∧ d = ItemDoc.feat (docFor e.id) ∧ e.id = d.docId := by
        intro d hd
        obtain ⟨hdp, hdc⟩ := List.mem_filter.mp hd
        have hdm : d.docId ∈ W.map (fun e => e.id) := by simpa using hdc
        obtain ⟨e, he, hei⟩ := List.mem_map.mp hdm
        obtain ⟨hdf1, hdf2, _⟩ := hdocFor e he
        refine ⟨e, he, ?_, hei⟩
        have hideq : ItemDoc.docId d = ItemDoc.docId (ItemDoc.feat (docFor e.id)) := by
          rw [show ItemDoc.docId (ItemDoc.feat (docFor e.id)) = (docFor e.id).source._id
            from rfl, hdf2, hei]
        exact List.inj_on_of_nodup_map hnodupD hdp hdf1 hideq
      have hnodupF : ((packDocs.filter (fun d =>
          (W.map (fun e => e.id)).contains d.docId)).map ItemDoc.docId).Nodup :=
        List.Nodup.sublist (List.Sublist.map _ (List.filter_sublist _)) hnodupD
      have hidperm : List.Perm ((packDocs.filter (fun d =>
          (W.map (fun e => e.id)).contains d.docId)).map ItemDoc.docId)
          (W.map (fun e => e.id)) := by
        apply (List.perm_ext_iff_of_nodup hnodupF hnodupE).mpr
        intro x
        constructor
        · intro hx
          obtain ⟨d, hd, hdx⟩ := List.mem_map.mp hx
          rw [← hdx]
          simpa using (List.mem_filter.mp hd).2
        · intro hx
          obtain ⟨e, he, hex⟩ := List.mem_map.mp hx
          subst hex
          obtain ⟨hdf1, hdf2, _⟩ := hdocFor e he
          refine List.mem_map.mpr ⟨ItemDoc.feat (docFor e.id), ?_, ?_⟩
          · refine List.mem_filter.mpr ⟨hdf1, ?_⟩
            have hdid : ItemDoc.docId (ItemDoc.feat (docFor e.id)) = e.id := by
              simp [ItemDoc.docId, hdf2]
            rw [hdid]
            simp only [List.contains, List.elem_eq_mem, decide_eq_true_eq]
            exact List.mem_map.mpr ⟨e, he, rfl⟩
          · simp [ItemDoc.docId, hdf2]
      have hfperm : List.Perm (packDocs.filter (fun d =>
          (W.map (fun e => e.id)).contains d.docId))
          (W.map (fun e => ItemDoc.feat (docFor e.id))) := by
        have hpoint : ∀ d ∈ packDocs.filter (fun d =>
            (W.map (fun e => e.id)).contains d.docId),
            (fun x => ItemDoc.feat (docFor (ItemDoc.docId x))) d = id d := by
          intro d hd
          obtain ⟨e, he, hde, hei⟩ := hpt d hd
          rw [hde]
          simp [ItemDoc.docId, (hdocFor e he).2.1]
        have h1 : packDocs.filter (fun d => (W.map (fun e => e.id)).contains d.docId) =
            ((packDocs.filter (fun d => (W.map (fun e => e.id)).contains d.docId)).map
              ItemDoc.docId).map (fun i => ItemDoc.feat (docFor i)) := by
          rw [List.map_map]
          calc packDocs.filter (fun d => (W.map (fun e => e.id)).contains d.docId)
              = (packDocs.filter (fun d =>
                  (W.map (fun e => e.id)).contains d.docId)).map id := by rw [List.map_id]
            _ = (packDocs.filter (fun d => (W.map (fun e => e.id)).contains d.docId)).map
                  ((fun i => ItemDoc.feat (docFor i)) ∘ ItemDoc.docId) :=
                (List.map_congr_left hpoint).symm
        rw [h1]
        have h2 := List.Perm.map (fun i => ItemDoc.feat (docFor i)) hidperm
        simpa [Function.comp] using h2
      have hoverride : List.Perm (overrideLevels W (packDocs.filter (fun d =>
          (W.map (fun e => e.id)).contains d.docId)))
          (W.map (fun e => ItemDoc.feat
            ⟨{ (docFor e.id).source with level := e.level }, e.level⟩)) := by
        unfold overrideLevels
        refine (List.Perm.map (overrideOne W) hfperm).trans ?_
        rw [List.map_map]
        have hpoint : ∀ e ∈ W, (overrideOne W ∘ fun e => ItemDoc.feat (docFor e.id)) e =
            ItemDoc.feat ⟨{ (docFor e.id).source with level := e.level }, e.level⟩ := by
          intro e he
          obtain ⟨hdf1, hdf2, hdf3⟩ := hdocFor e he
          simp only [Function.comp]
          rw [overrideOne, hdf2, find?_id_unique W hnodupE e he]
          simp [FeatDocument.prepareData, hdf3, hdf2]
        rw [List.map_congr_left hpoint]
      have hallfeat : ∀ d ∈ overrideLevels W (packDocs.filter (fun d =>
          (W.map (fun e => e.id)).contains d.docId)), d.isFeat = true := by
        intro d hd
        obtain ⟨e, he, hde⟩ := List.mem_map.mp (hoverride.mem_iff.mp hd)
        rw [← hde]
        rfl
      obtain ⟨out, hclone, hkey⟩ := cloneCompendiumFeats_ok c1._id _ hallfeat n
      refine ⟨out, n + (overrideLevels W (packDocs.filter (fun d =>
        (W.map (fun e => e.id)).contains d.docId))).length, ?_, ?_, ?_⟩
      · simp only [getFeatures]
        rw [if_pos hlen, hpe, if_pos hlen]
        have hgc : getFromCompendium g W = .ok (overrideLevels W (packDocs.filter (fun d =>
            (W.map (fun e => e.id)).contains d.docId))) := by
          unfold getFromCompendium getFromCompendiumLogged
          rw [hded, loopPacks, hfetch, loopPacks]
          simp [loopPacks, Except.map]
        rw [hgc]
        simp only [hclone, hge]
        simp [cloneGameFeats]
      · rw [hkey]
        refine (List.Perm.map (fun d => (d.sourceOf.name, d.sourceOf.level,
          d.sourceOf.featType, some c1._id)) hoverride).trans ?_
        rw [List.map_map]
        have hpoint : ∀ e ∈ W, ((fun d => (d.sourceOf.name, d.sourceOf.level,
            d.sourceOf.featType, some c1._id)) ∘ fun e => ItemDoc.feat
              ⟨{ (docFor e.id).source with level := e.level }, e.level⟩) e =
            ((docFor e.id).source.name, e.level, "classfeature", some c1._id) := by
          intro e he
          obtain ⟨_, _, hdf3⟩ := hdocFor e he
          simp only [Function.comp, ItemDoc.sourceOf]
          rw [hdf3]
        rw [List.map_congr_left hpoint]
      · intro f hf
        have hmem : featKey f ∈ out.map featKey := List.mem_map.mpr ⟨f, hf, rfl⟩
        rw [hkey] at hmem
        obtain ⟨d, hd, hfd⟩ := List.mem_map.mp hmem
        obtain ⟨e, he, hde⟩ := List.mem_map.mp (hoverride.mem_iff.mp hd)
        have hft : d.sourceOf.featType = "classfeature" := by
          rw [← hde]
          simp only [ItemDoc.sourceOf]
          exact (hdocFor e he).2.2
        have := congrArg (fun t => t.2.2.1) hfd
        simp only [featKey] at this
        rw [← this, hft]

/-- C1 (amended): attaching a Class at character level N attaches — up to the
level/name sort and fresh identities — exactly one class feature per
FeatureEntry whose level lies in the open-closed window (0, N], each carrying
its entry's level (hence <= N), provided the window entries reference a
single registered repository with duplicate-free ids, each matching exactly
one classfeature-tagged record, and the character has no prior class
features.  Level-0 entries are excluded, and world-item entries or wrong
level tags fall outside this guarantee. -/
theorem c1_attach_window (g : Game) (c : ClassSource) (actor : Character) (n : Nat)
    (P : String) (packDocs : List ItemDoc) (docFor : ItemId → FeatDocument)
    (hP : P ≠ "")
    (hpackeq : g.packs P = some packDocs)
    (hpack : ∀ e ∈ windowEntries c 0 actor.level, e.pack = some P)
    (hnodupE : ((windowEntries c 0 actor.level).map (fun e => e.id)).Nodup)
    (hnodupD : (packDocs.map ItemDoc.docId).Nodup)
    (hdocFor : ∀ e ∈ windowEntries c 0 actor.level,
      ItemDoc.feat (docFor e.id) ∈ packDocs ∧ (docFor e.id).source._id = e.id ∧
      (docFor e.id).source.featType = "classfeature")
    (hclean : ∀ f ∈ actor.feats, f.featType ≠ "classfeature") :
    ∃ a1 created n2, addABCItem g (.cls c) actor none n = .ok ((a1, created), n2) ∧
      (∀ f ∈ a1.feats, f.featType = "classfeature" → f.level ≤ actor.level) ∧
      List.Perm ((a1.feats.filter (fun f => f.featType == "classfeature")).map featKey)
        ((windowEntries c 0 actor.level).map (fun e =>
          ((docFor e.id).source.name, e.level, "classfeature", some (ItemId.fresh n)))) := by
  obtain ⟨out, n2, hres, hperm, hcf⟩ := resolve_single_pack_perm g
    { c with _id := ItemId.fresh n, insertedClassFeaturesLevel := some actor.level }
    actor.level (n + 1) P packDocs docFor hP hpackeq hpack hnodupE hnodupD hdocFor
  have hadd : addABCItem g (.cls c) actor none n = .ok
      ((createEmbedded { actor with classItem := none }
        ((List.insertionSort (fun a b => featLe a b = true) out).map ItemSourcePF2e.featS ++
          [ItemSourcePF2e.cls { c with _id := ItemId.fresh n, insertedClassFeaturesLevel := some actor.level }])),
        n2) := by
    simp only [addABCItem]
    rw [hres]
  refine ⟨{ actor with feats := actor.feats ++ List.insertionSort (fun a b => featLe a b = true) out, classItem := some { c with _id := ItemId.fresh n, insertedClassFeaturesLevel := some actor.level } },
    (List.insertionSort (fun a b => featLe a b = true) out).map ItemSourcePF2e.featS ++
      [ItemSourcePF2e.cls { c with _id := ItemId.fresh n, insertedClassFeaturesLevel := some actor.level }],
    n2, ?_, ?_, ?_⟩
  · rw [hadd]
    simp only [createEmbedded, foldl_attach_featS_cls]
  · intro f hf hcls
    have hf2 : f ∈ actor.feats ++ List.insertionSort (fun a b => featLe a b = true) out := hf
    rcases List.mem_append.mp hf2 with h1 | h2
    · exact absurd hcls (hclean f h1)
    · have hfo : f ∈ out := (List.perm_insertionSort _ out).subset h2
      have hmem : featKey f ∈ out.map featKey := List.mem_map.mpr ⟨f, hfo, rfl⟩
      obtain ⟨e, he, hfe⟩ := List.mem_map.mp (hperm.subset hmem)
      have hlv := congrArg (fun t => t.2.1) hfe
      simp only [featKey] at hlv
      have he2 : e ∈ c.items.filter
          (fun e => decide (actor.level ≥ e.level) && decide (e.level > 0)) := he
      obtain ⟨-, hcond⟩ := List.mem_filter.mp he2
      simp only [Bool.and_eq_true, decide_eq_true_eq] at hcond
      rw [← hlv]
      exact hcond.1
  · have hleft : actor.feats.filter (fun f => f.featType == "classfeature") = [] := by
      rw [List.filter_eq_nil_iff]
      intro f hf hc
      exact hclean f hf (by simpa using hc)
    have hright : (List.insertionSort (fun a b => featLe a b = true) out).filter
        (fun f => f.featType == "classfeature") =
        List.insertionSort (fun a b => featLe a b = true) out := by
      rw [List.filter_eq_self]
      intro f hf
      have hfo : f ∈ out := (List.perm_insertionSort _ out).subset hf
      simp [hcf f hfo]
    simp only [List.filter_append, hleft, hright, List.nil_append]
    exact (List.Perm.map featKey (List.perm_insertionSort _ out)).trans hperm

/-- C1 counterexample: at level 1 with a level-0 repository entry and a
level-1 world-item entry whose stored feat has native level 9, the run
attaches exactly one class feature, LocalNine at level 9 — so the attached
set is not the set of entries with level in [0, 1] (the level-0 entry is
dropped because the window is open at 0), and the attached level exceeds the
character level (world-item resolution never rewrites the level). -/
theorem c1_window_counterexample :
    Except.map (fun r => r.1.1.feats.map (fun f => (f.name, f.level, f.featType)))
      (addABCItem gC1 (.cls clsC1) actorC1 none 0) =
      .ok [("LocalNine", 9, "classfeature")] ∧
    ¬(9 ≤ actorC1.level) ∧
    clsC1.items.map (fun e => e.level) = [0, 1] ∧
    windowEntries clsC1 0 actorC1.level = [⟨none, .str "LOC", 1⟩] :=
  ⟨by rfl, by decide, by rfl, by rfl⟩

theorem c1_attach_window_witness :
    (("PW" : String) ≠ "" ∧ gW.packs "PW" = some packDocsW ∧
      (∀ e ∈ windowEntries clsW 0 actorW.level, e.pack = some "PW") ∧
      ((windowEntries clsW 0 actorW.level).map (fun e => e.id)).Nodup ∧
      (packDocsW.map ItemDoc.docId).Nodup ∧
      (∀ e ∈ windowEntries clsW 0 actorW.level,
        ItemDoc.feat (docForW e.id) ∈ packDocsW ∧ (docForW e.id).source._id = e.id ∧
        (docForW e.id).source.featType = "classfeature") ∧
      (∀ f ∈ actorW.feats, f.featType ≠ "classfeature")) ∧
    (∃ a1 created n2, addABCItem gW (.cls clsW) actorW none 0 = .ok ((a1, created), n2) ∧
      (∀ f ∈ a1.feats, f.featType = "classfeature" → f.level ≤ actorW.level) ∧
      List.Perm ((a1.feats.filter (fun f => f.featType == "classfeature")).map featKey)
        ((windowEntries clsW 0 actorW.level).map (fun e =>
          ((docForW e.id).source.name, e.level, "classfeature", some (ItemId.fresh 0))))) ∧
    Except.map (fun r => r.1.1.feats.map (fun f => (f.name, f.level)))
      (addABCItem gW (.cls clsW) actorW none 0) = .ok [("XOne", 1), ("XTwo", 2)] :=
  ⟨⟨by decide, by rfl, by decide, by decide, by decide, by decide, by decide⟩,
    c1_attach_window gW clsW actorW 0 "PW" packDocsW docForW (by decide) (by rfl)
      (by decide) (by decide) (by decide) (by decide) (by decide),
    by rfl⟩
